import Mathlib

/-
Verification of the blockparser repository (blockparse.py, script.py)
against its natural-language specification.

Byte strings are modelled as `List Nat` with every element below 256.
Python integers are `Int` where signs matter and `Nat` otherwise.
Fallible Python code (struct.error, IndexError, KeyError, ...) is modelled
with `Option` or with an explicit exception type.
-/

/-- Little-endian encoding of `n` into exactly `k` bytes
(`struct.pack` with formats B, H, L, Q). -/
def toLE : Nat → Nat → List Nat
  | 0, _ => []
  | k + 1, n => n % 256 :: toLE k (n / 256)

/-- Little-endian decoding of a byte list
(`struct.unpack` with formats B, H, L, Q). -/
def fromLE : List Nat → Nat
  | [] => 0
  | b :: rest => b + 256 * fromLE rest

theorem toLE_length (k n : Nat) : (toLE k n).length = k := by
  induction k generalizing n with
  | zero => rfl
  | succ k ih => simp [toLE, ih]

theorem fromLE_toLE (k n : Nat) (h : n < 256 ^ k) : fromLE (toLE k n) = n := by
  induction k generalizing n with
  | zero =>
    simp [toLE, fromLE]
    omega
  | succ k ih =>
    have hdiv : n / 256 < 256 ^ k := by
      rw [Nat.div_lt_iff_lt_mul (by norm_num)]
      calc n < 256 ^ (k + 1) := h
        _ = 256 ^ k * 256 := by ring
    simp [toLE, fromLE, ih _ hdiv]
    omega

theorem fromLE_append (l1 l2 : List Nat) :
    fromLE (l1 ++ l2) = fromLE l1 + 256 ^ l1.length * fromLE l2 := by
  induction l1 with
  | nil => simp [fromLE]
  | cons b rest ih =>
    simp [fromLE, ih, List.length_cons]
    ring

/-- blockparse.varint_length: encode the length of `data` as a Bitcoin VarInt.
Source branches: `length < 0xfd` gives one raw byte; `length <= 0xffff` gives
0xfd plus `struct.pack` of a 2-byte LE; `length <= 0xffffffff` gives 0xfe plus
4-byte LE; otherwise 0xff plus 8-byte LE (`struct.pack` would raise above the
quad range, so theorems assume `length < 2 ^ 64`). -/
def varint_length (data : List Nat) : List Nat :=
  let length := data.length
  if length < 0xfd then [length]
  else if length ≤ 0xffff then 0xfd :: toLE 2 length
  else if length ≤ 0xffffffff then 0xfe :: toLE 4 length
  else 0xff :: toLE 8 length

/-- blockparse.get_count: decode a VarInt from the front of `data`, returning
the raw encoding bytes (`data[:offset + length]`), the decoded count, and the
remaining data.  `none` models IndexError on empty data and struct.error when
fewer bytes remain than the prefix demands. -/
def get_count (data : List Nat) : Option (List Nat × Nat × List Nat) :=
  match data with
  | [] => none
  | b :: _ =>
    let ol : Nat × Nat :=
      if b = 0xfd then (1, 2)
      else if b = 0xfe then (1, 4)
      else if b = 0xff then (1, 8)
      else (0, 1)
    let offset := ol.1
    let length := ol.2
    let payload := (data.drop offset).take length
    if payload.length = length then
      some (data.take (offset + length), fromLE payload, data.drop (offset + length))
    else none

theorem get_count_small (b : Nat) (rest : List Nat) (h1 : b < 0xfd) :
    get_count (b :: rest) = some ([b], b, rest) := by
  have hb1 : ¬ (b = 0xfd) := by omega
  have hb2 : ¬ (b = 0xfe) := by omega
  have hb3 : ¬ (b = 0xff) := by omega
  simp [get_count, hb1, hb2, hb3, fromLE]

theorem get_count_wide (b k : Nat) (payload rest : List Nat)
    (hb : (b = 0xfd ∧ k = 2) ∨ (b = 0xfe ∧ k = 4) ∨ (b = 0xff ∧ k = 8))
    (hlen : payload.length = k) :
    get_count (b :: (payload ++ rest)) = some (b :: payload, fromLE payload, rest) := by
  have htake : (payload ++ rest).take k = payload := by
    rw [← hlen]; exact List.take_left payload rest
  have hdrop : (payload ++ rest).drop k = rest := by
    rw [← hlen]; exact List.drop_left payload rest
  rcases hb with ⟨hb, hk⟩ | ⟨hb, hk⟩ | ⟨hb, hk⟩ <;>
    subst hb <;> subst hk <;>
    simp [get_count, htake, hdrop, hlen, List.take_succ_cons, List.drop_succ_cons]

/-- C2: for every data whose length n is an unsigned 64-bit value, decoding
the VarInt encoding of n (with any trailing bytes) returns the encoding
itself, the value n, and the remainder, and the encoder produces the
minimal-width form: 1 byte below 0xfd, a 0xfd prefix plus 2 LE bytes up to
0xffff, 0xfe plus 4 bytes up to 0xffffffff, and 0xff plus 8 bytes otherwise. -/
theorem varint_roundtrip_minimal (data rest : List Nat) (h : data.length < 2 ^ 64) :
    get_count (varint_length data ++ rest) =
      some (varint_length data, data.length, rest)
    ∧ (data.length < 0xfd → varint_length data = [data.length])
    ∧ (0xfd ≤ data.length → data.length ≤ 0xffff →
        (varint_length data).length = 3 ∧ (varint_length data).head? = some 0xfd)
    ∧ (0xffff < data.length → data.length ≤ 0xffffffff →
        (varint_length data).length = 5 ∧ (varint_length data).head? = some 0xfe)
    ∧ (0xffffffff < data.length →
        (varint_length data).length = 9 ∧ (varint_length data).head? = some 0xff) := by
  set n := data.length with hn
  by_cases h1 : n < 0xfd
  · have henc : varint_length data = [n] := by simp [varint_length, ← hn, h1]
    refine ⟨?_, fun _ => henc, fun h2 _ => absurd h1 (by omega),
      fun h2 _ => absurd h1 (by omega), fun h2 => absurd h1 (by omega)⟩
    rw [henc, List.cons_append, List.nil_append, get_count_small n rest h1]
  · by_cases h2 : n ≤ 0xffff
    · have henc : varint_length data = 0xfd :: toLE 2 n := by
        simp [varint_length, ← hn, h1, h2]
      have hval : fromLE (toLE 2 n) = n := fromLE_toLE 2 n (by norm_num; omega)
      refine ⟨?_, fun hc => absurd hc (by omega),
        fun _ _ => ⟨by simp [henc, toLE_length], by simp [henc]⟩,
        fun hc _ => absurd hc (by omega), fun hc => absurd hc (by omega)⟩
      rw [henc, List.cons_append,
        get_count_wide 0xfd 2 (toLE 2 n) rest (Or.inl ⟨rfl, rfl⟩) (toLE_length 2 n), hval]
    · by_cases h3 : n ≤ 0xffffffff
      · have henc : varint_length data = 0xfe :: toLE 4 n := by
          simp [varint_length, ← hn, h1, h2, h3]
        have hval : fromLE (toLE 4 n) = n := fromLE_toLE 4 n (by norm_num; omega)
        refine ⟨?_, fun hc => absurd hc (by omega), fun _ hc => absurd hc (by omega),
          fun _ _ => ⟨by simp [henc, toLE_length], by simp [henc]⟩,
          fun hc => absurd hc (by omega)⟩
        rw [henc, List.cons_append,
          get_count_wide 0xfe 4 (toLE 4 n) rest (Or.inr (Or.inl ⟨rfl, rfl⟩))
            (toLE_length 4 n), hval]
      · have henc : varint_length data = 0xff :: toLE 8 n := by
          simp [varint_length, ← hn, h1, h2, h3]
        have hval : fromLE (toLE 8 n) = n := fromLE_toLE 8 n (by norm_num at h ⊢; omega)
        refine ⟨?_, fun hc => absurd hc (by omega), fun _ hc => absurd hc (by omega),
          fun _ hc => absurd hc (by omega),
          fun _ => ⟨by simp [henc, toLE_length], by simp [henc]⟩⟩
        rw [henc, List.cons_append,
          get_count_wide 0xff 8 (toLE 8 n) rest (Or.inr (Or.inr ⟨rfl, rfl⟩))
            (toLE_length 8 n), hval]

/-- C2 witness: the round-trip and minimal-width statement instantiated
at a 253-byte payload (the 0xfd boundary) with a nonempty remainder. -/
theorem varint_roundtrip_minimal_witness :
    (List.replicate 253 7 : List Nat).length < 2 ^ 64 ∧
    get_count (varint_length (List.replicate 253 7) ++ [9]) =
      some (varint_length (List.replicate 253 7), 253, [9]) := by
  have hlen : (List.replicate 253 7 : List Nat).length = 253 :=
    List.length_replicate 253 7
  refine ⟨by rw [hlen]; norm_num, ?_⟩
  have h := (varint_roundtrip_minimal (List.replicate 253 7) [9]
    (by rw [hlen]; norm_num)).1
  rw [hlen] at h
  exact h

/-! ## Transaction input parsing (blockparse.parse_input) -/

/-- The five fields of `split_input` as returned by blockparse.parse_input:
`[previous_hash, previous_index, raw_length, script, sequence]`. -/
structure SplitInput where
  previous_hash : List Nat
  previous_index : List Nat
  raw_length : List Nat
  script : List Nat
  sequence : List Nat
deriving DecidableEq, Repr

/-- blockparse.parse_input: slices 32 bytes of previous hash, 4 bytes of
previous index, a VarInt script length, `script_length` bytes of script and
4 bytes of sequence number from `data`, returning the raw bytes consumed,
the split fields, and the remaining data.  The only failing step is
`get_count`; every other field is produced by Python slicing, which silently
truncates when `data` is too short. -/
def parse_input (data : List Nat) : Option (List Nat × SplitInput × List Nat) :=
  let previous_hash := data.take 32
  let previous_index := (data.drop 32).take 4
  let raw_input := data.take 36
  match get_count (data.drop 36) with
  | none => none
  | some (raw_length, script_length, d1) =>
    let script := d1.take script_length
    let d2 := d1.drop script_length
    let sequence := d2.take 4
    some (raw_input ++ raw_length ++ script ++ sequence,
      ⟨previous_hash, previous_index, raw_length, script, sequence⟩,
      d2.drop 4)

/-- C4 counterexample: a transaction input buffer truncated inside the script
bytes (declared VarInt length 5, only one script byte 0xAA present, no
sequence field at all) parses without any error into a script of length 1.
The claim says such a buffer must raise a TruncatedInput error and that
parsing never silently returns a script shorter than its declared VarInt
length; the code has no TruncatedInput error and returns the short script. -/
theorem parse_input_truncated_no_error :
    parse_input (List.replicate 36 0 ++ [5, 0xAA]) =
      some (List.replicate 36 0 ++ [5, 0xAA],
        ⟨List.replicate 32 0, [0, 0, 0, 0], [5], [0xAA], []⟩, []) := by
  decide

/-- C4 amended: whenever the VarInt script length itself decodes, parse_input
returns successfully (it raises nothing), and a buffer that ends mid-script
yields a silently truncated script: the returned script is the first
`script_length` bytes of whatever remains, of length
`min script_length remaining`. -/
theorem parse_input_silent_truncation (data raw_length : List Nat)
    (script_length : Nat) (d1 : List Nat)
    (h : get_count (data.drop 36) = some (raw_length, script_length, d1)) :
    ∃ raw split rest, parse_input data = some (raw, split, rest) ∧
      split.script = d1.take script_length ∧
      split.script.length = min script_length d1.length := by
  refine ⟨data.take 36 ++ raw_length ++ d1.take script_length ++
    (d1.drop script_length).take 4,
    ⟨data.take 32, (data.drop 32).take 4, raw_length, d1.take script_length,
      (d1.drop script_length).take 4⟩,
    (d1.drop script_length).drop 4, ?_, rfl, by simp [List.length_take]⟩
  simp only [parse_input, h]

/-- C4 amended witness: the silent-truncation statement at the concrete
truncated buffer of the counterexample. -/
theorem parse_input_silent_truncation_witness :
    get_count ((List.replicate 36 0 ++ [5, 0xAA] : List Nat).drop 36) =
      some ([5], 5, [0xAA]) ∧
    ∃ raw split rest,
      parse_input (List.replicate 36 0 ++ [5, 0xAA]) = some (raw, split, rest) ∧
      split.script = ([0xAA] : List Nat).take 5 ∧
      split.script.length = min 5 ([0xAA] : List Nat).length := by
  exact ⟨by decide,
    parse_input_silent_truncation (List.replicate 36 0 ++ [5, 0xAA]) [5] 5 [0xAA]
      (by decide)⟩

/-! ## Script numeric encoding (script.bytevector, script.number) -/

/-- Python exception kinds that the modelled code can raise.  `script.run`
catches only `txInvalid` (TransactionInvalidError) and `reservedWord`
(ReservedWordError); every other kind propagates to the caller. -/
inductive PyExc
  | txInvalid
  | reservedWord
  | notImplemented
  | nameErr
  | keyErr
  | indexErr
  | typeErr
  | valueErr
  | structErr
  | zeroDivisionErr
  | attributeErr
  | assertionErr
  | fuelOut
deriving DecidableEq, Repr

/-- Python `bytes.rstrip(b'\x00')`: remove all trailing zero bytes. -/
def rstrip0 (l : List Nat) : List Nat :=
  (l.reverse.dropWhile (fun b => b == 0)).reverse

/-- script.bytevector: convert an integer to a byte vector per Script rules.
The source packs `abs(number)` as a 4-byte LE quantity (struct.error above
0xffffffff), strips trailing zero bytes, appends a zero byte when the top
bit of the last byte is set (`ord(vector[-1:]) & 0x80`, written here as the
bit-7 test `/ 0x80 % 2 = 1`), sets the sign bit for negative numbers
(`| 0x80`, written `% 0x80 + 0x80`, equal for byte values), and raises
ValueError when more than 4 bytes result. -/
def bytevector (n : Int) : Except PyExc (List Nat) :=
  if n = 0 then Except.ok []
  else if 4294967296 ≤ n.natAbs then Except.error PyExc.structErr
  else
    let vector := rstrip0 (toLE 4 n.natAbs)
    let vector := if vector.getLastD 0 / 0x80 % 2 = 1 then vector ++ [0] else vector
    let vector := if n < 0 then vector.dropLast ++ [vector.getLastD 0 % 0x80 + 0x80]
      else vector
    if 4 < vector.length then Except.error PyExc.valueErr else Except.ok vector

/-- script.number: treat a byte string as a Script number.  The most
significant (last) byte holds a sign bit (`msbs & 0x80`, written as the
bit-7 test) and is masked down (`msbs & 0x7f`, written `% 0x80`); the string
is padded with three zero bytes and its first 4 bytes decoded little-endian.
The empty string falls through `ord` TypeError and `int` ValueError to 0. -/
def number (bytestring : List Nat) : Int :=
  match bytestring.getLast? with
  | Option.none => 0
  | some msbs =>
    let sign := msbs / 0x80 % 2 = 1
    let m := msbs % 0x80
    let padded := bytestring.dropLast ++ [m] ++ [0, 0, 0]
    let v := fromLE (padded.take 4)
    (if sign then -1 else 1) * (v : Int)

theorem rstrip0_spec (l : List Nat) :
    ∃ k, l = rstrip0 l ++ List.replicate k 0 := by
  refine ⟨(l.reverse.takeWhile (fun b => b == 0)).length, ?_⟩
  have h1 : l.reverse.takeWhile (fun b => b == 0) ++
      l.reverse.dropWhile (fun b => b == 0) = l.reverse :=
    List.takeWhile_append_dropWhile (fun b => b == 0) l.reverse
  have h2 : l.reverse.takeWhile (fun b => b == 0) =
      List.replicate (l.reverse.takeWhile (fun b => b == 0)).length 0 := by
    apply List.eq_replicate_of_mem
    intro x hx
    have := List.mem_takeWhile_imp hx
    simpa using this
  calc l = l.reverse.reverse := (List.reverse_reverse l).symm
    _ = (l.reverse.dropWhile (fun b => b == 0)).reverse ++
        (l.reverse.takeWhile (fun b => b == 0)).reverse := by
        rw [← List.reverse_append, h1]
    _ = rstrip0 l ++ List.replicate (l.reverse.takeWhile (fun b => b == 0)).length 0 := by
        rw [rstrip0]
        rw [show (l.reverse.takeWhile (fun b => b == 0)).reverse =
          List.replicate (l.reverse.takeWhile (fun b => b == 0)).length 0 by
            rw [h2, List.reverse_replicate]
            simp]

theorem fromLE_zeros (l : List Nat) (h : ∀ x ∈ l, x = 0) : fromLE l = 0 := by
  induction l with
  | nil => rfl
  | cons b rest ih =>
    have hb : b = 0 := h b (List.mem_cons_self b rest)
    have hr : fromLE rest = 0 := ih (fun x hx => h x (List.mem_cons_of_mem b hx))
    simp [fromLE, hb, hr]

theorem fromLE_replicate_zero (k : Nat) : fromLE (List.replicate k 0) = 0 :=
  fromLE_zeros _ (fun x hx => by simpa using (List.eq_of_mem_replicate hx))

theorem fromLE_pad_take (l zs : List Nat) (hz : ∀ x ∈ zs, x = 0)
    (hl : l.length ≤ 4) : fromLE ((l ++ zs).take 4) = fromLE l := by
  rw [List.take_append_eq_append_take, List.take_of_length_le hl, fromLE_append,
    fromLE_zeros (zs.take (4 - l.length))
      (fun x hx => hz x (List.mem_of_mem_take hx))]
  simp

theorem toLE_lt (k n : Nat) : ∀ b ∈ toLE k n, b < 256 := by
  induction k generalizing n with
  | zero => intro b hb; simp [toLE] at hb
  | succ k ih =>
    intro b hb
    rw [toLE] at hb
    rcases List.mem_cons.mp hb with h | h
    · omega
    · exact ih (n / 256) b h

theorem dropLast_append_getLastD (l : List Nat) (h : l ≠ []) :
    l.dropLast ++ [l.getLastD 0] = l := by
  have hd : l.getLastD 0 = l.getLast h := by
    rw [List.getLastD_eq_getLast?, List.getLast?_eq_getLast l h]
    rfl
  rw [hd]
  exact List.dropLast_append_getLast h

theorem bytevector_ok_number (n : Int) (hne : n ≠ 0) (h : n.natAbs ≤ 0x7fffffff) :
    ∃ v, bytevector n = Except.ok v ∧ number v = n := by
  set a := n.natAbs with ha
  have ha1 : 1 ≤ a := by
    have := Int.natAbs_pos.mpr hne
    omega
  have hlt : ¬ (4294967296 ≤ a) := by omega
  obtain ⟨k, hk⟩ := rstrip0_spec (toLE 4 a)
  set v1 := rstrip0 (toLE 4 a) with hv1
  have hfv1 : fromLE v1 = a := by
    have hfp : fromLE (toLE 4 a) = a := fromLE_toLE 4 a (by norm_num; omega)
    rw [hk, fromLE_append, fromLE_replicate_zero, Nat.mul_zero, Nat.add_zero] at hfp
    exact hfp
  have hlen4 : v1.length + k = 4 := by
    have hl := toLE_length 4 a
    rw [hk, List.length_append, List.length_replicate] at hl
    exact hl
  have hv1len : v1.length ≤ 4 := by omega
  have hv1ne : v1 ≠ [] := by
    intro h0
    rw [h0] at hfv1
    simp [fromLE] at hfv1
    omega
  set b := v1.getLastD 0 with hb
  have hbL : b = v1.getLast hv1ne := by
    rw [hb, List.getLastD_eq_getLast?, List.getLast?_eq_getLast v1 hv1ne]
    rfl
  have hbmem : b ∈ v1 := by
    rw [hbL]
    exact List.getLast_mem hv1ne
  have hb256 : b < 256 := by
    have hm : b ∈ toLE 4 a := by
      rw [hk]
      exact List.mem_append_left _ hbmem
    exact toLE_lt 4 a b hm
  have hconcat : v1.dropLast ++ [b] = v1 := by
    rw [hb]
    exact dropLast_append_getLastD v1 hv1ne
  have hdplen : v1.dropLast.length = v1.length - 1 := List.length_dropLast v1
  by_cases hmsb : b / 128 % 2 = 1
  · -- sign bit of the last byte is set: a zero byte is appended first
    have hv1len3 : v1.length ≤ 3 := by
      by_contra hcon
      have h4 : v1.length = 4 := by omega
      have hk0 : k = 0 := by omega
      have hveq : v1 = toLE 4 a := by rw [hk, hk0, List.replicate_zero, List.append_nil]
      have hexp : toLE 4 a =
          [a % 256, a / 256 % 256, a / 256 / 256 % 256, a / 256 / 256 / 256 % 256] := by
        simp [toLE]
      have hlast : b = a / 256 / 256 / 256 % 256 := by
        rw [hb, hveq, hexp]
        rfl
      have hdiv : a / 256 / 256 / 256 = a / 16777216 := by
        rw [Nat.div_div_eq_div_mul, Nat.div_div_eq_div_mul]
      rw [hdiv] at hlast
      omega
    by_cases hneg : n < 0
    · refine ⟨v1 ++ [128], ?_, ?_⟩
      · simp only [bytevector, if_neg hne, ← ha, if_neg hlt, ← hv1, ← hb, if_pos hmsb,
          if_pos hneg, List.dropLast_concat, List.getLastD_concat]
        norm_num
        omega
      · have hnum : number (v1 ++ [128]) = -(a : Int) := by
          simp only [number, List.getLast?_concat, List.dropLast_concat]
          norm_num
          rw [fromLE_pad_take v1 [0, 0, 0, 0] (by decide) hv1len, hfv1]
        rw [hnum, ha, Int.ofNat_natAbs_of_nonpos (le_of_lt hneg), neg_neg]
    · refine ⟨v1 ++ [0], ?_, ?_⟩
      · simp only [bytevector, if_neg hne, ← ha, if_neg hlt, ← hv1, ← hb, if_pos hmsb,
          if_neg hneg]
        norm_num
        omega
      · have hnum : number (v1 ++ [0]) = (a : Int) := by
          simp only [number, List.getLast?_concat, List.dropLast_concat]
          norm_num
          rw [fromLE_pad_take v1 [0, 0, 0, 0] (by decide) hv1len, hfv1]
        rw [hnum, ha, Int.natAbs_of_nonneg (by omega)]
  · -- sign bit of the last byte is clear: the vector is used as is
    have hblt : b < 128 := by omega
    by_cases hneg : n < 0
    · refine ⟨v1.dropLast ++ [b + 128], ?_, ?_⟩
      · simp only [bytevector, if_neg hne, ← ha, if_neg hlt, ← hv1, ← hb, if_neg hmsb,
          if_pos hneg]
        rw [if_neg (by rw [List.length_append, hdplen]; simp; omega)]
        rw [Nat.mod_eq_of_lt hblt]
      · have hnum : number (v1.dropLast ++ [b + 128]) = -(a : Int) := by
          simp only [number, List.getLast?_concat, List.dropLast_concat]
          rw [if_pos (by omega), show (b + 128) % 128 = b by omega]
          rw [show v1.dropLast ++ [b] ++ [0, 0, 0] = v1 ++ [0, 0, 0] by rw [hconcat],
            fromLE_pad_take v1 [0, 0, 0] (by decide) hv1len, hfv1]
          norm_num
        rw [hnum, ha, Int.ofNat_natAbs_of_nonpos (le_of_lt hneg), neg_neg]
    · refine ⟨v1, ?_, ?_⟩
      · simp only [bytevector, if_neg hne, ← ha, if_neg hlt, ← hv1, ← hb, if_neg hmsb,
          if_neg hneg]
        rw [if_neg (by omega)]
      · have hnum : number v1 = (a : Int) := by
          conv_lhs => rw [← hconcat]
          simp only [number, List.getLast?_concat, List.dropLast_concat]
          rw [if_neg (by omega), Nat.mod_eq_of_lt hblt]
          rw [show v1.dropLast ++ [b] ++ [0, 0, 0] = v1 ++ [0, 0, 0] by rw [hconcat],
            fromLE_pad_take v1 [0, 0, 0] (by decide) hv1len, hfv1]
          norm_num
        rw [hnum, ha, Int.natAbs_of_nonneg (by omega)]

/-- C8 counterexample: 2^31 = 2147483648 has a magnitude that fits in 4 bytes
(it is at most 0xffffffff), yet `bytevector` raises ValueError on it (the
sign bit forces a fifth byte and the length check rejects the vector), so no
round-trip value exists: the claim fails as stated for n = 2^31. -/
theorem bytevector_two_pow_31_valueerror :
    bytevector 2147483648 = Except.error PyExc.valueErr ∧
    (2147483648 : Int).natAbs ≤ 0xffffffff :=
  ⟨rfl, by decide⟩

/-- C8 amended: for every integer n whose encoded vector fits in 4 bytes,
that is |n| at most 0x7fffffff, decoding the Script numeric encoding of n
yields n back, and the specific literals hold: bytevector 0 is the empty
byte string, number of [0x80] is 0, and number of [0xe8, 0x83] is -1000. -/
theorem scriptnum_roundtrip (n : Int) (h : n.natAbs ≤ 0x7fffffff) :
    (∃ v, bytevector n = Except.ok v ∧ number v = n)
    ∧ bytevector 0 = Except.ok []
    ∧ number [0x80] = 0
    ∧ number [0xe8, 0x83] = -1000 := by
  refine ⟨?_, rfl, by decide, by decide⟩
  by_cases hne : n = 0
  · subst hne
    exact ⟨[], rfl, by decide⟩
  · exact bytevector_ok_number n hne h

/-- C8 witness: the amended round-trip applied at n = -1000. -/
theorem scriptnum_roundtrip_witness :
    ((-1000 : Int).natAbs ≤ 0x7fffffff)
    ∧ ((∃ v, bytevector (-1000) = Except.ok v ∧ number v = -1000)
       ∧ bytevector 0 = Except.ok []
       ∧ number [0x80] = 0
       ∧ number [0xe8, 0x83] = -1000) :=
  ⟨by decide, scriptnum_roundtrip (-1000) (by decide)⟩

/-! ## Chain assembly (blockparse.nextblock, connect, listchain)

Block hashes are abstracted as natural numbers (double-SHA-256 of distinct
headers is collision-free by assumption, stated as distinctness hypotheses);
the all-zero null hash is the distinguished value `NULLHASH`.  Python block
dicts are mutable objects shared between the BLOCKCHAIN and CHAINS dicts, so
the model stores every node in a heap (list of nodes, addressed by index)
and lets both dicts map hashes to heap indices. -/

/-- CONFIRMATIONS = 6 in blockparse.py. -/
def CONFIRMATIONS : Nat := 6

/-- The hash of the fake null block pointed to by the genesis block. -/
def NULLHASH : Nat := 0

/-- A block node: its own hash, the previous-block hash (`none` for the fake
null root block, which has no previous key), and the list of child hashes. -/
structure Node where
  hash : Nat
  previous : Option Nat
  children : List Nat
deriving DecidableEq, Repr

abbrev Heap := List Node

/-- Python dict lookup on an insertion-ordered association list. -/
def assocGet (m : List (Nat × Nat)) (key : Nat) : Option Nat :=
  match m with
  | [] => Option.none
  | (k, v) :: rest => if k = key then some v else assocGet rest key

/-- Python `key in dict`. -/
def assocHas (m : List (Nat × Nat)) (key : Nat) : Bool :=
  (assocGet m key).isSome

/-- Python `dict[key] = v`: overwrite in place, or append a new key. -/
def assocSet (m : List (Nat × Nat)) (key v : Nat) : List (Nat × Nat) :=
  match m with
  | [] => [(key, v)]
  | (k, w) :: rest => if k = key then (k, v) :: rest else (k, w) :: assocSet rest key v

/-- Python `dict.pop(key)` (the mapping part; the value is looked up first). -/
def assocPop (m : List (Nat × Nat)) (key : Nat) : List (Nat × Nat) :=
  match m with
  | [] => []
  | (k, w) :: rest => if k = key then rest else (k, w) :: assocPop rest key

/-- Python `list(dict)`: the keys in insertion order. -/
def assocKeys (m : List (Nat × Nat)) : List Nat := m.map Prod.fst

/-- blockparse.connect: hook the block stored at heap index `blockId` into an
existing chain.  The parent is `blocks[block['previous']]`; a duplicate entry
of the block hash is first removed from the parent child list
(`children.remove`), then the hash is inserted at the front
(`children.insert(0, ...)`), keeping any competing child behind it.
`none` models the lookup errors that cannot occur in the callers. -/
def connect (heap : Heap) (bc : List (Nat × Nat)) (blockId : Nat) : Option Heap :=
  match heap.get? blockId with
  | Option.none => Option.none
  | some node =>
    match node.previous with
    | Option.none => Option.none
    | some prevHash =>
      match assocGet bc prevHash with
      | Option.none => Option.none
      | some pid =>
        match heap.get? pid with
        | Option.none => Option.none
        | some pnode =>
          let cs := if node.hash ∈ pnode.children
            then pnode.children.erase node.hash else pnode.children
          some (heap.set pid { pnode with children := node.hash :: cs })

/-- The while loop of blockparse.listchain: repeatedly follow the front
(index 0) child, checking that the child previous-hash matches the current
block hash (`ValueError: Broken chain` otherwise, modelled as `none`), and
append each visited block.  `fuel` bounds the walk; running out models
nontermination on a cyclic heap and never occurs in reachable states. -/
def listchainAux (heap : Heap) (bc : List (Nat × Nat)) :
    Nat → Node → List Node → Option (List Node)
  | 0, _, _ => Option.none
  | fuel + 1, block, acc =>
    match block.children with
    | [] => some acc
    | c0 :: _ =>
      match assocGet bc c0 with
      | Option.none => Option.none
      | some cid =>
        match heap.get? cid with
        | Option.none => Option.none
        | some child =>
          if child.previous = some block.hash then
            listchainAux heap bc fuel child (acc ++ [child])
          else Option.none

/-- blockparse.listchain: return the blockchain as a list after an integrity
check.  The fake null root block (no previous key) is not included. -/
def listchain (heap : Heap) (bc : List (Nat × Nat)) (root : Node) (fuel : Nat) :
    Option (List Node) :=
  listchainAux heap bc fuel root (if root.previous.isSome then [root] else [])

/-- The confirmation loop at the end of each blockparse.nextblock iteration:
`while available >= 0 and last < available: last += 1; yield BLOCKS[last]`.
Returns the final `last` and the yielded blocks. -/
def yieldLoop (blocks : List Node) (available : Int) :
    Nat → Int → Option (Int × List Node)
  | 0, _ => Option.none
  | fuel + 1, last =>
    if 0 ≤ available ∧ last < available then
      match blocks.get? (last + 1).toNat with
      | Option.none => Option.none
      | some b =>
        match yieldLoop blocks available fuel (last + 1) with
        | Option.none => Option.none
        | some (l, ys) => some (l, b :: ys)
    else some (last, [])

/-- A raw chunk reduced to the two header fields blockparse.nextblock uses
for linkage: the block hash and the previous-block hash. -/
structure Chunk where
  hash : Nat
  previous : Nat
deriving DecidableEq, Repr

/-- The state of blockparse.nextblock between chunks: the node heap, the
BLOCKCHAIN and CHAINS dicts (hash to heap index), the index `last` of the
last yielded block, and the hashes yielded so far. -/
structure ChainState where
  heap : Heap
  blockchain : List (Nat × Nat)
  chains : List (Nat × Nat)
  last : Int
  output : List Nat
deriving Repr

/-- The state after the initialization lines of blockparse.nextblock:
BLOCKCHAIN and CHAINS hold the fake null block, `last = -1`. -/
def initChainState : ChainState :=
  { heap := [{ hash := NULLHASH, previous := Option.none, children := [] }],
    blockchain := [(NULLHASH, 0)],
    chains := [(NULLHASH, 0)],
    last := -1,
    output := [] }

/-- The chain-consolidation loop of blockparse.nextblock: one pass over a
snapshot of the CHAINS keys; the null key is skipped, and every other entry
whose previous hash is now in BLOCKCHAIN is popped from CHAINS and
connected. -/
def consolidate (heap : Heap) (bc chains : List (Nat × Nat)) (changed : Bool) :
    List Nat → Option (Heap × List (Nat × Nat) × Bool)
  | [] => some (heap, chains, changed)
  | key :: rest =>
    if key = NULLHASH then consolidate heap bc chains changed rest
    else
      match assocGet chains key with
      | Option.none => Option.none
      | some nid =>
        match heap.get? nid with
        | Option.none => Option.none
        | some node =>
          match node.previous with
          | Option.none => Option.none
          | some prev =>
            if assocHas bc prev then
              match connect heap bc nid with
              | Option.none => Option.none
              | some heap2 => consolidate heap2 bc (assocPop chains key) true rest
            else consolidate heap bc chains changed rest

/-- One iteration of the chunk loop of blockparse.nextblock: store the new
node in BLOCKCHAIN, connect it if its previous block is known (otherwise
record it as an orphan chain), run one consolidation pass, and if anything
changed recompute the main chain with listchain and yield every block that
now has CONFIRMATIONS later blocks on top of it. -/
def nextblockStep (s : ChainState) (c : Chunk) : Option ChainState := do
  let nid := s.heap.length
  let node : Node := { hash := c.hash, previous := some c.previous, children := [] }
  let heap1 := s.heap ++ [node]
  let bc1 := assocSet s.blockchain c.hash nid
  let (heap2, chains2, changed) ←
    if assocHas bc1 c.previous then do
      let h ← connect heap1 bc1 nid
      pure (h, s.chains, true)
    else
      pure (heap1, assocSet s.chains c.hash nid, false)
  let (heap3, chains3, changed3) ← consolidate heap2 bc1 chains2 changed (assocKeys chains2)
  if changed3 then do
    let rootId ← assocGet chains3 NULLHASH
    let root ← heap3.get? rootId
    let blocks ← listchain heap3 bc1 root (heap3.length + 1)
    let available : Int := (blocks.length : Int) - CONFIRMATIONS - 1
    let (last2, ys) ← yieldLoop blocks available (blocks.length + 1) s.last
    pure { heap := heap3, blockchain := bc1, chains := chains3,
           last := last2, output := s.output ++ ys.map Node.hash }
  else
    pure { heap := heap3, blockchain := bc1, chains := chains3,
           last := s.last, output := s.output }

/-- blockparse.nextblock as a fold of the per-chunk step over the chunk
stream, starting from the freshly initialized globals. -/
def nextblockRun (chunks : List Chunk) : Option ChainState :=
  chunks.foldlM nextblockStep initChainState

/-- C9: linking a block whose parent already has recorded children raises no
error and keeps every existing child: connect returns the heap with the
parent child list equal to the new block hash in front of the old list.
Concretely, feeding nextblock a linear chain 1, 2 and then a competing block
3 with the same parent 1 leaves parent 1 with children [3, 2] (newest
first), and the main-chain walk, which always follows the front child,
continues via block 3: the walk yields hashes [1, 3]. -/
theorem connect_fork_front_child
    (heap : Heap) (bc : List (Nat × Nat)) (blockId pid : Nat)
    (node pnode : Node) (prevHash : Nat)
    (hnode : heap.get? blockId = some node)
    (hprev : node.previous = some prevHash)
    (hbc : assocGet bc prevHash = some pid)
    (hpnode : heap.get? pid = some pnode)
    (hnotdup : node.hash ∉ pnode.children) :
    (connect heap bc blockId =
      some (heap.set pid { pnode with children := node.hash :: pnode.children }))
    ∧ (∃ s, nextblockRun [⟨1, 0⟩, ⟨2, 1⟩, ⟨3, 1⟩] = some s ∧
        s.heap.get? 1 = some { hash := 1, previous := some 0, children := [3, 2] } ∧
        ∃ root blocks, assocGet s.chains NULLHASH = some 0 ∧
          s.heap.get? 0 = some root ∧
          listchain s.heap s.blockchain root (s.heap.length + 1) = some blocks ∧
          blocks.map Node.hash = [1, 3]) := by
  constructor
  · have hnode2 : heap[blockId]? = some node := by
      rw [← List.get?_eq_getElem?]; exact hnode
    have hpnode2 : heap[pid]? = some pnode := by
      rw [← List.get?_eq_getElem?]; exact hpnode
    simp [connect, hnode2, hprev, hbc, hpnode2, hnotdup]
  · exact ⟨_, rfl, rfl, _, _, rfl, rfl, rfl, rfl⟩

/-- C9 witness: the connect statement applied to a concrete parent that
already has child 2 when block 3 (heap index 1) is linked to it. -/
theorem connect_fork_front_child_witness :
    (([⟨0, Option.none, [2]⟩, ⟨3, some 0, []⟩] : Heap).get? 1 =
      some ⟨3, some 0, []⟩) ∧
    ((⟨3, some 0, []⟩ : Node).previous = some 0) ∧
    (assocGet [(0, 0)] 0 = some 0) ∧
    (([⟨0, Option.none, [2]⟩, ⟨3, some 0, []⟩] : Heap).get? 0 =
      some ⟨0, Option.none, [2]⟩) ∧
    ((⟨3, some 0, []⟩ : Node).hash ∉ ([2] : List Nat)) ∧
    (connect [⟨0, Option.none, [2]⟩, ⟨3, some 0, []⟩] [(0, 0)] 1 =
      some [⟨0, Option.none, [3, 2]⟩, ⟨3, some 0, []⟩]) := by
  refine ⟨by decide, by decide, by decide, by decide, by decide, ?_⟩
  exact (connect_fork_front_child
    [⟨0, Option.none, [2]⟩, ⟨3, some 0, []⟩] [(0, 0)] 1 0
    ⟨3, some 0, []⟩ ⟨0, Option.none, [2]⟩ 0
    (by decide) (by decide) (by decide) (by decide) (by decide)).1

/-! ## C3: confirmation behaviour of nextblock on a linear chain -/

/-- Build the chunk stream of a linear chain: the chunk of each hash points
to the preceding hash, the first one to `prev`. -/
def mkChunks (prev : Nat) : List Nat → List Chunk
  | [] => []
  | h :: rest => ⟨h, prev⟩ :: mkChunks h rest

/-- The BLOCKCHAIN entries for a chain of hashes starting at heap index
`start`. -/
def chainIndex (start : Nat) : List Nat → List (Nat × Nat)
  | [] => []
  | h :: rest => (h, start) :: chainIndex (start + 1) rest

/-- The node expected at heap index `i` once the linear chain `hs` has been
fully processed: index 0 is the fake null root, index `i ≥ 1` the block with
hash `hs[i-1]`, each holding its single successor as only child. -/
def expNode (hs : List Nat) (i : Nat) : Node :=
  if i = 0 then ⟨NULLHASH, Option.none, hs.take 1⟩
  else ⟨hs.getD (i - 1) 0,
        some (if i = 1 then NULLHASH else hs.getD (i - 2) 0),
        (hs.drop i).take 1⟩

/-- Full description of the nextblock state after the linear chain `hs` has
been processed in order. -/
def StateInv (hs : List Nat) (s : ChainState) : Prop :=
  s.heap.length = hs.length + 1 ∧
  (∀ i, i ≤ hs.length → s.heap.get? i = some (expNode hs i)) ∧
  s.blockchain = (NULLHASH, 0) :: chainIndex 1 hs ∧
  s.chains = [(NULLHASH, 0)] ∧
  s.last = max (-1) ((hs.length : Int) - (CONFIRMATIONS : Int) - 1) ∧
  s.output = hs.take (hs.length - CONFIRMATIONS)

theorem chainIndex_append (a b : List Nat) (st : Nat) :
    chainIndex st (a ++ b) = chainIndex st a ++ chainIndex (st + a.length) b := by
  induction a generalizing st with
  | nil => simp [chainIndex]
  | cons x t ih =>
    rw [show (x :: t) ++ b = x :: (t ++ b) from rfl, chainIndex, ih (st + 1),
      chainIndex, List.cons_append, List.length_cons,
      show st + 1 + t.length = st + (t.length + 1) from by omega]

theorem chainIndex_keys (hs : List Nat) (st : Nat) :
    (chainIndex st hs).map Prod.fst = hs := by
  induction hs generalizing st with
  | nil => rfl
  | cons x t ih => simp [chainIndex, ih]

theorem assocGet_not_mem (m : List (Nat × Nat)) (key : Nat)
    (h : key ∉ m.map Prod.fst) : assocGet m key = Option.none := by
  induction m with
  | nil => rfl
  | cons p rest ih =>
    rcases p with ⟨k, v⟩
    simp only [List.map_cons, List.mem_cons] at h
    push_neg at h
    simp only [assocGet, if_neg (fun hk : k = key => h.1 hk.symm)]
    exact ih h.2

theorem assocGet_append_none (m1 m2 : List (Nat × Nat)) (key : Nat)
    (h : assocGet m1 key = Option.none) :
    assocGet (m1 ++ m2) key = assocGet m2 key := by
  induction m1 with
  | nil => rfl
  | cons p rest ih =>
    rcases p with ⟨k, v⟩
    by_cases hk : k = key
    · simp [assocGet, hk] at h
    · simp only [assocGet, if_neg hk] at h
      simp only [List.cons_append, assocGet, if_neg hk]
      exact ih h

theorem assocSet_new (m : List (Nat × Nat)) (key v : Nat)
    (h : key ∉ m.map Prod.fst) : assocSet m key v = m ++ [(key, v)] := by
  induction m with
  | nil => rfl
  | cons p rest ih =>
    rcases p with ⟨k, w⟩
    simp only [List.map_cons, List.mem_cons] at h
    push_neg at h
    simp only [assocSet, if_neg (fun hk : k = key => h.1 hk.symm), List.cons_append]
    rw [ih h.2]

theorem assocGet_chainIndex (hs : List Nat) (st i : Nat) (hi : i < hs.length)
    (hnd : hs.Nodup) :
    assocGet (chainIndex st hs) (hs.getD i 0) = some (st + i) := by
  induction hs generalizing st i with
  | nil => simp at hi
  | cons x t ih =>
    rcases i with _ | i
    · simp [chainIndex, assocGet, List.getD]
    · have hx : x ∉ t := (List.nodup_cons.mp hnd).1
      have hmem : t.getD i 0 ∈ t := by
        rw [List.getD_eq_getElem t 0 (by simpa using Nat.lt_of_succ_lt_succ hi)]
        exact List.getElem_mem _
      have hne : ¬ (x = t.getD i 0) := fun he => hx (he ▸ hmem)
      simp only [chainIndex, assocGet, List.getD_cons_succ, if_neg hne]
      rw [ih (st + 1) i (by simpa using Nat.lt_of_succ_lt_succ hi)
        (List.nodup_cons.mp hnd).2]
      congr 1
      omega

theorem mkChunks_snoc (p x : Nat) (l : List Nat) :
    mkChunks p (l ++ [x]) = mkChunks p l ++ [⟨x, l.getLastD p⟩] := by
  induction l generalizing p with
  | nil => rfl
  | cons y t ih =>
    rw [show (y :: t) ++ [x] = y :: (t ++ [x]) from rfl, mkChunks, ih y,
      mkChunks, List.getLastD_cons, List.cons_append]

theorem foldlM_option_snoc {α β : Type} (f : β → α → Option β) (init : β)
    (l : List α) (x : α) :
    List.foldlM f init (l ++ [x]) =
      (List.foldlM f init l).bind (fun s => f s x) := by
  induction l generalizing init with
  | nil =>
    simp [List.foldlM]
  | cons y t ih =>
    simp only [List.cons_append, List.foldlM]
    cases f init y with
    | none => rfl
    | some s =>
      set_option linter.unnecessarySimpa false in
      simpa using ih s

theorem expNode_children_eq (hs : List Nat) (j : Nat) :
    (expNode hs j).children = (hs.drop j).take 1 := by
  rcases Nat.eq_zero_or_pos j with h0 | hpos
  · subst h0; simp [expNode]
  · have hj0 : ¬ (j = 0) := by omega
    simp [expNode, hj0]

theorem listchainAux_walk (hs : List Nat) (heap : Heap) (bc : List (Nat × Nat))
    (hInv : ∀ i, i ≤ hs.length → heap.get? i = some (expNode hs i))
    (hbc : bc = (NULLHASH, 0) :: chainIndex 1 hs)
    (hnn : ∀ x ∈ hs, x ≠ NULLHASH)
    (hnd : hs.Nodup) :
    ∀ d j fuel acc, j + d = hs.length → d < fuel →
      listchainAux heap bc fuel (expNode hs j) acc =
        some (acc ++ (List.range d).map (fun t => expNode hs (j + 1 + t))) := by
  intro d
  induction d with
  | zero =>
    intro j fuel acc hj hf
    obtain ⟨f, rfl⟩ : ∃ f, fuel = f + 1 := ⟨fuel - 1, by omega⟩
    have hch : (expNode hs j).children = [] := by
      rw [expNode_children_eq, List.drop_of_length_le (by omega)]
      rfl
    rw [listchainAux, hch]
    simp
  | succ d ih =>
    intro j fuel acc hj hf
    obtain ⟨f, rfl⟩ : ∃ f, fuel = f + 1 := ⟨fuel - 1, by omega⟩
    have hjlt : j < hs.length := by omega
    have hch : (expNode hs j).children = [hs.getD j 0] := by
      rw [expNode_children_eq, List.drop_eq_getElem_cons hjlt, List.getD_eq_getElem hs 0 hjlt]
      rfl
    have hget : assocGet bc (hs.getD j 0) = some (1 + j) := by
      have hmem : hs.getD j 0 ∈ hs := by
        rw [List.getD_eq_getElem hs 0 hjlt]
        exact List.getElem_mem _
      rw [hbc, assocGet, if_neg (fun he : NULLHASH = hs.getD j 0 => hnn _ hmem he.symm)]
      exact assocGet_chainIndex hs 1 j hjlt hnd
    have hchild : heap.get? (1 + j) = some (expNode hs (j + 1)) := by
      rw [show 1 + j = j + 1 from by omega]
      exact hInv (j + 1) (by omega)
    have hprev : (expNode hs (j + 1)).previous = some (expNode hs j).hash := by
      rcases Nat.eq_zero_or_pos j with h0 | hpos
      · subst h0; simp [expNode]
      · have hj0 : ¬ (j = 0) := by omega
        have hj1 : ¬ (j + 1 = 1) := by omega
        simp [expNode, hj0, hj1]
    rw [listchainAux, hch]
    simp only [hget, hchild, if_pos hprev]
    rw [ih (j + 1) f (acc ++ [expNode hs (j + 1)]) (by omega) (by omega)]
    congr 1
    rw [List.range_succ_eq_map, List.map_cons, List.map_map]
    have hmaps : (List.range d).map (fun t => expNode hs (j + 1 + 1 + t)) =
        (List.range d).map ((fun t => expNode hs (j + 1 + t)) ∘ Nat.succ) := by
      apply List.map_congr_left
      intro t _
      simp only [Function.comp]
      congr 1
      omega
    rw [hmaps]
    simp

theorem listchain_walk (hs : List Nat) (heap : Heap) (bc : List (Nat × Nat))
    (hInv : ∀ i, i ≤ hs.length → heap.get? i = some (expNode hs i))
    (hbc : bc = (NULLHASH, 0) :: chainIndex 1 hs)
    (hnn : ∀ x ∈ hs, x ≠ NULLHASH)
    (hnd : hs.Nodup)
    (fuel : Nat) (hf : hs.length < fuel) :
    listchain heap bc (expNode hs 0) fuel =
      some ((List.range hs.length).map (fun t => expNode hs (1 + t))) := by
  rw [listchain, show (expNode hs 0).previous = Option.none from by simp [expNode]]
  rw [show (Option.none : Option Nat).isSome = false from rfl]
  simp only [Bool.false_eq_true, if_false]
  rw [listchainAux_walk hs heap bc hInv hbc hnn hnd hs.length 0 fuel [] (by omega) hf]
  simp

theorem yieldLoop_none (blocks : List Node) (available last : Int) (fuel : Nat)
    (h : ¬ (0 ≤ available ∧ last < available)) :
    yieldLoop blocks available (fuel + 1) last = some (last, []) := by
  rw [yieldLoop, if_neg h]

theorem yieldLoop_one (blocks : List Node) (available last : Int) (fuel : Nat)
    (b : Node)
    (h0 : 0 ≤ available) (h1 : last + 1 = available)
    (hb : blocks.get? (last + 1).toNat = some b) :
    yieldLoop blocks available (fuel + 2) last = some (available, [b]) := by
  rw [yieldLoop, if_pos ⟨h0, by omega⟩]
  simp only [hb]
  rw [yieldLoop_none blocks available (last + 1) fuel (by omega), h1]

theorem getLastD_eq_getD (l : List Nat) (hne : l ≠ []) (d1 d2 : Nat) :
    l.getLastD d1 = l.getD (l.length - 1) d2 := by
  rw [List.getLastD_eq_getLast?, List.getLast?_eq_getLast l hne,
    List.getD_eq_getElem l d2 (by
      have := List.length_pos.mpr hne
      omega)]
  simp [List.getLast_eq_getElem]

theorem expNode_extend_lt (hs : List Nat) (h : Nat) (i : Nat)
    (hi : i ≤ hs.length) (hne : i ≠ hs.length) :
    expNode (hs ++ [h]) i = expNode hs i := by
  have hilt : i < hs.length := by omega
  rcases Nat.eq_zero_or_pos i with h0 | hpos
  · subst h0
    rw [show expNode (hs ++ [h]) 0 = ⟨NULLHASH, Option.none, (hs ++ [h]).take 1⟩ from rfl,
      show expNode hs 0 = ⟨NULLHASH, Option.none, hs.take 1⟩ from rfl,
      List.take_append_of_le_length (by omega)]
  · have hi0 : ¬ (i = 0) := by omega
    simp only [expNode, if_neg hi0]
    congr 1
    · exact List.getD_append _ _ _ _ (by omega)
    · by_cases hi1 : i = 1
      · simp [hi1]
      · simp only [if_neg hi1]
        rw [List.getD_append _ _ _ _ (by omega)]
    · rw [List.drop_append_of_le_length (by omega),
        List.take_append_of_le_length (by simp [List.length_drop]; omega)]

theorem expNode_extend_eq (hs : List Nat) (h : Nat) :
    expNode (hs ++ [h]) hs.length =
      ⟨(expNode hs hs.length).hash, (expNode hs hs.length).previous, [h]⟩ := by
  rcases Nat.eq_zero_or_pos hs.length with h0 | hpos
  · have hnil : hs = [] := List.length_eq_zero.mp h0
    subst hnil
    simp [expNode]
  · have hm0 : ¬ (hs.length = 0) := by omega
    simp only [expNode, if_neg hm0]
    congr 1
    · exact List.getD_append _ _ _ _ (by omega)
    · by_cases h1 : hs.length = 1
      · simp [h1]
      · simp only [if_neg h1]
        rw [List.getD_append _ _ _ _ (by omega)]
    · rw [List.drop_append_of_le_length (by omega), List.drop_of_length_le (by omega)]
      rfl

theorem expNode_extend_new (hs : List Nat) (h : Nat) :
    expNode (hs ++ [h]) (hs.length + 1) = ⟨h, some (hs.getLastD NULLHASH), []⟩ := by
  have hne : ¬ (hs.length + 1 = 0) := by omega
  simp only [expNode, if_neg hne]
  congr 1
  · rw [show hs.length + 1 - 1 = hs.length from by omega,
      List.getD_append_right _ _ _ _ (by omega)]
    simp
  · rcases Nat.eq_zero_or_pos hs.length with h0 | hpos
    · have hnil : hs = [] := List.length_eq_zero.mp h0
      subst hnil
      simp
    · have h1 : ¬ (hs.length + 1 = 1) := by omega
      have hnil : hs ≠ [] := by
        intro hc
        rw [hc] at hpos
        simp at hpos
      simp only [if_neg h1]
      rw [show hs.length + 1 - 2 = hs.length - 1 from by omega,
        List.getD_append _ _ _ _ (by omega), ← getLastD_eq_getD hs hnil NULLHASH 0]
  · rw [List.drop_of_length_le (by simp)]
    rfl


theorem consolidate_null (heap : Heap) (bc : List (Nat × Nat))
    (chains : List (Nat × Nat)) (changed : Bool) :
    consolidate heap bc chains changed [NULLHASH] = some (heap, chains, changed) := by
  simp [consolidate]

theorem nextblockStep_ideal (hs : List Nat) (h : Nat) (s : ChainState)
    (hinv : StateInv hs s)
    (hnd : (hs ++ [h]).Nodup)
    (hnn : ∀ x ∈ hs ++ [h], x ≠ NULLHASH) :
    ∃ s2, nextblockStep s ⟨h, hs.getLastD NULLHASH⟩ = some s2 ∧
      StateInv (hs ++ [h]) s2 := by
  obtain ⟨hlen, hget, hbc, hchains, hlast, hout⟩ := hinv
  have hnd3 := List.nodup_append.mp hnd
  have hndhs : hs.Nodup := hnd3.1
  have hhns : h ∉ hs := fun hh => hnd3.2.2 hh (List.mem_singleton_self h)
  have hnnhs : ∀ x ∈ hs, x ≠ NULLHASH := fun x hx => hnn x (List.mem_append_left _ hx)
  have hhn : h ≠ NULLHASH := hnn h (List.mem_append_right _ (List.mem_singleton_self h))
  have hbc1 : assocSet s.blockchain h s.heap.length =
      (NULLHASH, 0) :: chainIndex 1 (hs ++ [h]) := by
    rw [hbc, hlen, chainIndex_append hs [h] 1,
      assocSet_new _ _ _ (by
        rw [show ((NULLHASH, 0) :: chainIndex 1 hs).map Prod.fst = NULLHASH :: hs from by
          simp [chainIndex_keys]]
        simp only [List.mem_cons]
        push_neg
        exact ⟨hhn, hhns⟩)]
    simp [chainIndex, Nat.add_comm]
  have hpid : assocGet ((NULLHASH, 0) :: chainIndex 1 (hs ++ [h]))
      (hs.getLastD NULLHASH) = some hs.length := by
    by_cases hnil : hs = []
    · subst hnil
      rfl
    · have hmlt : hs.length - 1 < (hs ++ [h]).length := by simp; omega
      have hlpos : 0 < hs.length := List.length_pos.mpr hnil
      have hpd : hs.getLastD NULLHASH = (hs ++ [h]).getD (hs.length - 1) 0 := by
        rw [getLastD_eq_getD hs hnil NULLHASH 0,
          List.getD_append _ _ _ _ (by omega)]
      have hpmem : hs.getLastD NULLHASH ∈ hs := by
        rw [getLastD_eq_getD hs hnil NULLHASH 0,
          List.getD_eq_getElem hs 0 (by omega)]
        exact List.getElem_mem _
      have hpn : ¬ (NULLHASH = hs.getLastD NULLHASH) :=
        fun he => hnnhs _ hpmem he.symm
      rw [show assocGet ((NULLHASH, 0) :: chainIndex 1 (hs ++ [h])) (hs.getLastD NULLHASH)
          = if NULLHASH = hs.getLastD NULLHASH then some 0
            else assocGet (chainIndex 1 (hs ++ [h])) (hs.getLastD NULLHASH) from rfl,
        if_neg hpn, hpd, assocGet_chainIndex (hs ++ [h]) 1 (hs.length - 1) hmlt hnd]
      congr 1
      omega
  have hnewexp : expNode (hs ++ [h]) (hs.length + 1) =
      ⟨h, some (hs.getLastD NULLHASH), []⟩ := expNode_extend_new hs h
  -- from here on the previous hash is opaque
  generalize hgen : hs.getLastD NULLHASH = p at hpid hnewexp ⊢
  have hhas : assocHas ((NULLHASH, 0) :: chainIndex 1 (hs ++ [h])) p = true := by
    rw [assocHas, hpid]
    rfl
  have hnew : (s.heap ++ [(⟨h, some p, []⟩ : Node)]).get? s.heap.length =
      some ⟨h, some p, []⟩ :=
    List.get?_concat_length s.heap _
  have hpar : (s.heap ++ [(⟨h, some p, []⟩ : Node)]).get? hs.length =
      some (expNode hs hs.length) := by
    rw [List.get?_append (by omega)]
    exact hget hs.length (by omega)
  have hparch : (expNode hs hs.length).children = [] := by
    rw [expNode_children_eq, List.drop_of_length_le (by omega)]
    rfl
  have hconn : connect (s.heap ++ [(⟨h, some p, []⟩ : Node)])
      ((NULLHASH, 0) :: chainIndex 1 (hs ++ [h])) s.heap.length =
      some ((s.heap ++ [(⟨h, some p, []⟩ : Node)]).set hs.length
        (⟨(expNode hs hs.length).hash, (expNode hs hs.length).previous, [h]⟩ : Node)) := by
    simp only [connect, hnew, hpid, hpar, hparch, List.not_mem_nil, if_false,
      List.mem_nil_iff]
  have hInv2 : ∀ i, i ≤ hs.length + 1 →
      ((s.heap ++ [(⟨h, some p, []⟩ : Node)]).set hs.length
        (⟨(expNode hs hs.length).hash, (expNode hs hs.length).previous, [h]⟩ : Node)).get? i =
      some (expNode (hs ++ [h]) i) := by
    intro i hi
    by_cases him : i = hs.length
    · subst him
      rw [List.get?_set_eq, hpar, expNode_extend_eq]
      rfl
    · rw [List.get?_set_ne _ _ (fun he => him he.symm)]
      by_cases hit : i = hs.length + 1
      · subst hit
        rw [show hs.length + 1 = s.heap.length from by omega,
          List.get?_concat_length,
          show s.heap.length = hs.length + 1 from by omega, hnewexp]
      · have hilt : i < hs.length := by omega
        rw [List.get?_append (by omega), hget i (by omega),
          expNode_extend_lt hs h i (by omega) him]
  have hInv2len : ∀ i, i ≤ (hs ++ [h]).length →
      ((s.heap ++ [(⟨h, some p, []⟩ : Node)]).set hs.length
        (⟨(expNode hs hs.length).hash, (expNode hs hs.length).previous, [h]⟩ : Node)).get? i =
      some (expNode (hs ++ [h]) i) := by
    intro i hi
    exact hInv2 i (by simpa using hi)
  have hheap2len : ((s.heap ++ [(⟨h, some p, []⟩ : Node)]).set hs.length
      (⟨(expNode hs hs.length).hash, (expNode hs hs.length).previous, [h]⟩ : Node)).length =
      hs.length + 2 := by
    simp [List.length_set, List.length_append]
    omega
  have hroot : ((s.heap ++ [(⟨h, some p, []⟩ : Node)]).set hs.length
      (⟨(expNode hs hs.length).hash, (expNode hs hs.length).previous, [h]⟩ : Node)).get? 0 =
      some (expNode (hs ++ [h]) 0) := hInv2 0 (by omega)
  have hlc : listchain
      ((s.heap ++ [(⟨h, some p, []⟩ : Node)]).set hs.length
        (⟨(expNode hs hs.length).hash, (expNode hs hs.length).previous, [h]⟩ : Node))
      ((NULLHASH, 0) :: chainIndex 1 (hs ++ [h]))
      (expNode (hs ++ [h]) 0)
      (((s.heap ++ [(⟨h, some p, []⟩ : Node)]).set hs.length
        (⟨(expNode hs hs.length).hash, (expNode hs hs.length).previous, [h]⟩ : Node)).length + 1) =
      some ((List.range (hs ++ [h]).length).map (fun t => expNode (hs ++ [h]) (1 + t))) := by
    apply listchain_walk (hs ++ [h]) _ _ hInv2len rfl hnn hnd
    rw [hheap2len]
    simp
  set SH : Heap := (s.heap ++ [(⟨h, some p, []⟩ : Node)]).set hs.length
      (⟨(expNode hs hs.length).hash, (expNode hs hs.length).previous, [h]⟩ : Node)
    with hSH
  set B : List Node := (List.range (hs ++ [h]).length).map
      (fun t => expNode (hs ++ [h]) (1 + t)) with hB
  have hblen : B.length = hs.length + 1 := by
    rw [hB]
    simp
  have hconfc : (CONFIRMATIONS : Int) = 6 := rfl
  by_cases hbig : 7 ≤ hs.length + 1
  · -- one more block becomes confirmed
    have havail : 0 ≤ (B.length : Int) - CONFIRMATIONS - 1 := by
      rw [hblen, hconfc]
      push_cast
      omega
    have hlast1 : s.last + 1 = (B.length : Int) - CONFIRMATIONS - 1 := by
      rw [hblen, hconfc, hlast, hconfc]
      push_cast
      omega
    have hbget : B.get? (s.last + 1).toNat =
        some (expNode (hs ++ [h]) (1 + (hs.length - 6))) := by
      have htn : (s.last + 1).toNat = hs.length - 6 := by
        rw [hlast1, hblen, hconfc]
        push_cast
        omega
      rw [htn, hB, List.get?_map, List.get?_range (by simp; omega)]
      rfl
    have hyone := yieldLoop_one B ((B.length : Int) - CONFIRMATIONS - 1)
      s.last hs.length (expNode (hs ++ [h]) (1 + (hs.length - 6)))
      havail hlast1 hbget
    refine ⟨{
        heap := SH,
        blockchain := (NULLHASH, 0) :: chainIndex 1 (hs ++ [h]),
        chains := [(NULLHASH, 0)],
        last := (B.length : Int) - CONFIRMATIONS - 1,
        output := s.output ++
          List.map Node.hash [expNode (hs ++ [h]) (1 + (hs.length - 6))] },
      ?_, ?_⟩
    · simp only [nextblockStep, hbc1, hhas, if_true, hconn, hchains,
        Option.pure_def, Option.bind_eq_bind, Option.some_bind]
      rw [show assocKeys [(NULLHASH, 0)] = [NULLHASH] from rfl, consolidate_null]
      simp only [Option.some_bind, if_true,
        show assocGet [(NULLHASH, 0)] NULLHASH = some 0 from rfl, hroot, hlc]
      rw [show B.length + 1 = hs.length + 2 from by rw [hblen], hyone]
      simp only [Option.some_bind]
    · unfold StateInv
      refine ⟨?_, ?_, rfl, rfl, ?_, ?_⟩
      · show SH.length = (hs ++ [h]).length + 1
        rw [hheap2len]
        simp
      · exact hInv2len
      · show (B.length : Int) - CONFIRMATIONS - 1 =
          max (-1) (((hs ++ [h]).length : Int) - CONFIRMATIONS - 1)
        rw [hblen, hconfc]
        rw [show ((hs ++ [h]).length : Int) = (hs.length : Int) + 1 from by
          rw [List.length_append, List.length_singleton]
          push_cast
          ring]
        rw [max_eq_right (by omega)]
        push_cast
        ring
      · show s.output ++
            List.map Node.hash [expNode (hs ++ [h]) (1 + (hs.length - 6))] =
          (hs ++ [h]).take ((hs ++ [h]).length - CONFIRMATIONS)
        rw [hout]
        have hhash : (expNode (hs ++ [h]) (1 + (hs.length - 6))).hash =
            (hs ++ [h]).getD (hs.length - 6) 0 := by
          have hne0 : ¬ (1 + (hs.length - 6) = 0) := by omega
          simp only [expNode, if_neg hne0]
          rw [show 1 + (hs.length - 6) - 1 = hs.length - 6 from by omega]
        rw [List.map_cons, List.map_nil, hhash]
        have hidx : hs.length - 6 < (hs ++ [h]).length := by simp; omega
        have htk : hs.take (hs.length - 6) = (hs ++ [h]).take (hs.length - 6) :=
          (List.take_append_of_le_length (by omega)).symm
        rw [show (CONFIRMATIONS : Nat) = 6 from rfl, htk,
          show (hs ++ [h]).length - 6 = (hs.length - 6) + 1 from by
            simp
            omega]
        rw [List.take_succ]
        congr 1
        rw [List.getElem?_eq_getElem hidx, List.getD_eq_getElem _ 0 hidx]
        rfl
  · -- no block is confirmed yet
    have hnavail : ¬ (0 ≤ (B.length : Int) - CONFIRMATIONS - 1 ∧
        s.last < (B.length : Int) - CONFIRMATIONS - 1) := by
      rw [hblen, hconfc]
      push_neg
      intro hc
      exfalso
      push_cast at hc
      omega
    have hynone := yieldLoop_none B ((B.length : Int) - CONFIRMATIONS - 1)
      s.last B.length hnavail
    refine ⟨{
        heap := SH,
        blockchain := (NULLHASH, 0) :: chainIndex 1 (hs ++ [h]),
        chains := [(NULLHASH, 0)],
        last := s.last,
        output := s.output ++ List.map Node.hash ([] : List Node) },
      ?_, ?_⟩
    · simp only [nextblockStep, hbc1, hhas, if_true, hconn, hchains,
        Option.pure_def, Option.bind_eq_bind, Option.some_bind]
      rw [show assocKeys [(NULLHASH, 0)] = [NULLHASH] from rfl, consolidate_null]
      simp only [Option.some_bind, if_true,
        show assocGet [(NULLHASH, 0)] NULLHASH = some 0 from rfl, hroot, hlc]
      rw [hynone]
      simp only [Option.some_bind]
    · unfold StateInv
      refine ⟨?_, ?_, rfl, rfl, ?_, ?_⟩
      · show SH.length = (hs ++ [h]).length + 1
        rw [hheap2len]
        simp
      · exact hInv2len
      · show s.last = max (-1) (((hs ++ [h]).length : Int) - CONFIRMATIONS - 1)
        rw [hlast, hconfc]
        rw [show ((hs ++ [h]).length : Int) = (hs.length : Int) + 1 from by
          rw [List.length_append, List.length_singleton]
          push_cast
          ring]
        rw [max_eq_left (by omega), max_eq_left (by omega)]
      · show s.output ++ List.map Node.hash ([] : List Node) =
          (hs ++ [h]).take ((hs ++ [h]).length - CONFIRMATIONS)
        rw [hout, List.map_nil, List.append_nil,
          show hs.length - CONFIRMATIONS = 0 from by
            simp [CONFIRMATIONS]
            omega,
          show (hs ++ [h]).length - CONFIRMATIONS = 0 from by
            simp [CONFIRMATIONS]
            omega]
        rfl

theorem StateInv_init : StateInv [] initChainState := by
  refine ⟨rfl, ?_, rfl, rfl, by decide, rfl⟩
  intro i hi
  have h0 : i = 0 := by simpa using hi
  subst h0
  rfl

theorem mkChunks_take (hs : List Nat) (p k : Nat) :
    (mkChunks p hs).take k = mkChunks p (hs.take k) := by
  induction hs generalizing p k with
  | nil => simp [mkChunks]
  | cons x t ih =>
    rcases k with _ | k
    · simp [mkChunks]
    · simp only [mkChunks, List.take_succ_cons, ih x k]

theorem nextblockRun_ideal (hs : List Nat)
    (hnd : hs.Nodup) (hnn : ∀ x ∈ hs, x ≠ NULLHASH) :
    ∃ s, nextblockRun (mkChunks NULLHASH hs) = some s ∧ StateInv hs s := by
  induction hs using List.reverseRecOn with
  | nil => exact ⟨initChainState, rfl, StateInv_init⟩
  | append_singleton l x ih =>
    have hndl : l.Nodup := (List.nodup_append.mp hnd).1
    have hnnl : ∀ y ∈ l, y ≠ NULLHASH := fun y hy => hnn y (List.mem_append_left _ hy)
    obtain ⟨s, hrun, hinv⟩ := ih hndl hnnl
    obtain ⟨s2, hstep, hinv2⟩ := nextblockStep_ideal l x s hinv hnd hnn
    refine ⟨s2, ?_, hinv2⟩
    rw [nextblockRun, mkChunks_snoc, foldlM_option_snoc]
    rw [show List.foldlM nextblockStep initChainState (mkChunks NULLHASH l) = some s
      from hrun, Option.some_bind, hstep]

/-- C3: feeding nextblock the chunk stream of a linear chain (distinct
nonnull hashes, each chunk pointing at the preceding one, the first at the
null hash) in chain order, after every prefix of k chunks the generator has
yielded exactly the first k - CONFIRMATIONS block hashes, in chain order.
Hence each block is yielded exactly once (the output is a prefix of the
distinct chain, never retracted or repeated), and the Nth block (1-based)
has been yielded exactly when the main chain length k has reached
N + CONFIRMATIONS. -/
theorem nextblock_confirmations (hs : List Nat)
    (hnd : hs.Nodup) (hnn : ∀ x ∈ hs, x ≠ NULLHASH)
    (k : Nat) (hk : k ≤ hs.length) :
    ∃ s, nextblockRun ((mkChunks NULLHASH hs).take k) = some s ∧
      s.output = hs.take (k - CONFIRMATIONS) ∧
      (∀ N, 1 ≤ N → N ≤ hs.length →
        (hs.getD (N - 1) 0 ∈ s.output ↔ N + CONFIRMATIONS ≤ k)) := by
  have hndk : (hs.take k).Nodup := List.Nodup.sublist (List.take_sublist k hs) hnd
  have hnnk : ∀ x ∈ hs.take k, x ≠ NULLHASH :=
    fun x hx => hnn x (List.mem_of_mem_take hx)
  obtain ⟨s, hrun, hinv⟩ := nextblockRun_ideal (hs.take k) hndk hnnk
  obtain ⟨_, _, _, _, _, houts⟩ := hinv
  have hlen : (hs.take k).length = k := by
    rw [List.length_take]
    omega
  have houts2 : s.output = hs.take (k - CONFIRMATIONS) := by
    rw [houts, hlen, List.take_take]
    congr 1
    have hcle : k - CONFIRMATIONS ≤ k := Nat.sub_le k CONFIRMATIONS
    omega
  refine ⟨s, ?_, houts2, ?_⟩
  · rw [mkChunks_take]
    exact hrun
  · intro N hN1 hN2
    constructor
    · intro hmem
      rw [houts2, List.mem_iff_getElem] at hmem
      obtain ⟨i, hilt, hieq⟩ := hmem
      have hibound : i < k - CONFIRMATIONS ∧ i < hs.length := by
        rw [List.length_take] at hilt
        omega
      rw [List.getElem_take, List.getD_eq_getElem hs 0 (by omega)] at hieq
      have hiN : i = N - 1 := by
        rw [List.Nodup.getElem_inj_iff hnd] at hieq
        exact hieq
      omega
    · intro hle
      rw [houts2]
      have hidx : N - 1 < hs.length := by omega
      rw [List.getD_eq_getElem hs 0 hidx, List.mem_iff_getElem]
      refine ⟨N - 1, ?_, ?_⟩
      · rw [List.length_take]
        omega
      · rw [List.getElem_take]

/-- C3 witness: the confirmation statement for a concrete 8-block linear
chain after all 8 chunks: exactly blocks 1 and 2 are confirmed. -/
theorem nextblock_confirmations_witness :
    ([1, 2, 3, 4, 5, 6, 7, 8] : List Nat).Nodup ∧
    (∀ x ∈ ([1, 2, 3, 4, 5, 6, 7, 8] : List Nat), x ≠ NULLHASH) ∧
    8 ≤ ([1, 2, 3, 4, 5, 6, 7, 8] : List Nat).length ∧
    (∃ s, nextblockRun ((mkChunks NULLHASH [1, 2, 3, 4, 5, 6, 7, 8]).take 8) = some s ∧
      s.output = ([1, 2, 3, 4, 5, 6, 7, 8] : List Nat).take (8 - CONFIRMATIONS) ∧
      (∀ N, 1 ≤ N → N ≤ ([1, 2, 3, 4, 5, 6, 7, 8] : List Nat).length →
        (([1, 2, 3, 4, 5, 6, 7, 8] : List Nat).getD (N - 1) 0 ∈ s.output ↔
          N + CONFIRMATIONS ≤ 8))) :=
  ⟨by decide, by decide, by decide,
    nextblock_confirmations [1, 2, 3, 4, 5, 6, 7, 8] (by decide) (by decide) 8 (by decide)⟩

/-! ## Script interpreter (script.py): values, context, helpers -/

/-- A value on the interpreter's data stack.  script.py pushes byte strings
(pushdata, bytevector results, hash digests), ints (op_depth, op_shownumber,
CECKey.verify), and the None sentinel appended by `run` on script failure;
bools arrive via `bool(...)` in doctest scenarios. -/
inductive SItem
  | bys (bs : List Nat)
  | num (n : Int)
  | boolV (b : Bool)
  | noneV
deriving DecidableEq, Repr

/-- Python truthiness `bool(x)` of a stack item: nonempty bytes and nonzero
ints are truthy; None is falsy. -/
def truthy : SItem → Bool
  | SItem.bys bs => !bs.isEmpty
  | SItem.num n => decide (n ≠ 0)
  | SItem.boolV b => b
  | SItem.noneV => false

/-- script.number applied to a stack item: bytes go through `number`; ints
and bools through the `int(bytestring)` fallback; `int(None)` raises
TypeError (not caught by the ValueError handler). -/
def numberS : SItem → Except PyExc Int
  | SItem.bys bs => Except.ok (number bs)
  | SItem.num n => Except.ok n
  | SItem.boolV b => Except.ok (if b then 1 else 0)
  | SItem.noneV => Except.error PyExc.typeErr

/-- A Python int where the source uses a raw stack item as an index or
shift amount without `number(...)`: ints and bools pass, anything else is a
TypeError. -/
def intOf : SItem → Except PyExc Int
  | SItem.num n => Except.ok n
  | SItem.boolV b => Except.ok (if b then 1 else 0)
  | _ => Except.error PyExc.typeErr

/-- The interpreter's data stack, in Python list order: index 0 is the
bottom, `append`/`pop` act on the end. -/
abbrev Stack := List SItem

/-- `stack.pop()`: remove and return the last element; IndexError on an
empty stack leaves it unchanged. -/
def popS (st : Stack) : Except (PyExc × Stack) (SItem × Stack) :=
  match st.getLast? with
  | Option.none => Except.error (PyExc.indexErr, st)
  | some x => Except.ok (x, st.dropLast)

/-- `number(stack.pop())`. -/
def popNum (st : Stack) : Except (PyExc × Stack) (Int × Stack) := do
  let (x, st) ← popS st
  match numberS x with
  | Except.error e => Except.error (e, st)
  | Except.ok n => Except.ok (n, st)

/-- Python `list[i]` with a possibly negative index. -/
def pyGetIdx (st : Stack) (i : Int) : Option SItem :=
  let j : Int := if i < 0 then (st.length : Int) + i else i
  if j < 0 then Option.none else st.get? j.toNat

/-- Python `list.pop(i)`: the removed element and the remaining list, or
none (IndexError) when the index is out of range. -/
def pyPopIdx (st : Stack) (i : Int) : Option (SItem × Stack) :=
  let j : Int := if i < 0 then (st.length : Int) + i else i
  if j < 0 then Option.none
  else
    match st.get? j.toNat with
    | Option.none => Option.none
    | some x => some (x, st.eraseIdx j.toNat)

/-- Python slice bound resolution: a negative bound counts from the end and
clamps at 0, a nonnegative one clamps at the length. -/
def pyBound (len : Nat) (i : Int) : Nat :=
  if i < 0 then ((len : Int) + i).toNat else min i.toNat len

/-- Python `bs[a:b]` on a byte string with int bounds. -/
def pySlice (bs : List Nat) (a b : Int) : List Nat :=
  (bs.take (pyBound bs.length b)).drop (pyBound bs.length a)

/-- Python `stack[a:b]` on the data stack. -/
def pySliceS (st : Stack) (a b : Int) : Stack :=
  (st.take (pyBound st.length b)).drop (pyBound st.length a)

/-- Python `list.insert(i, x)`: the position clamps to the list. -/
def pyInsert (st : Stack) (i : Int) (x : SItem) : Stack :=
  let p : Nat := if i < 0 then ((st.length : Int) + i).toNat else min i.toNat st.length
  st.take p ++ [x] ++ st.drop p

/-- A transaction output as script.py represents it: the 3-list
[amount, raw_length, script] of byte strings (see PIZZA/FIRST). -/
structure TxOutput where
  amount : List Nat
  raw_length : List Nat
  script : List Nat
deriving DecidableEq, Repr

/-- A transaction as script.py represents it: the 6-list
[version, raw_in_count, inputs, raw_out_count, outputs, lock_time], each
input being the 5-list matching SplitInput's fields. -/
structure Tx where
  version : List Nat
  raw_in_count : List Nat
  inputs : List SplitInput
  raw_out_count : List Nat
  outputs : List TxOutput
  lock_time : List Nat
deriving DecidableEq, Repr

/-- script.tx_serialize: join each input 5-list and output 3-list, then
concatenate the six fields. -/
def tx_serialize (t : Tx) : List Nat :=
  t.version ++ t.raw_in_count ++
    (t.inputs.map (fun i =>
      i.previous_hash ++ i.previous_index ++ i.raw_length ++
        i.script ++ i.sequence)).join ++
    t.raw_out_count ++
    (t.outputs.map (fun o => o.amount ++ o.raw_length ++ o.script)).join ++
    t.lock_time

/-- The cryptographic collaborators of script.py (hashlib digests and
CECKey.verify), abstracted as function parameters. -/
structure ScriptOracles where
  sha256 : List Nat → List Nat
  sha1 : List Nat → List Nat
  ripemd160 : List Nat → List Nat
  ecdsaVerify : List Nat → List Nat → List Nat → Int

/-- The keyword arguments `run` threads through every operation, plus the
oracles.  `opcode` starts at a dummy 0; the loop sets it before any
operation reads it.  `parsed` is Option because `run`'s doctest passes
None for it. -/
structure Ctx where
  script : List Nat
  reference : List Nat
  parsed : Option (List (Option Nat))
  altstack : Stack
  ifstack : List (Option Bool)
  mark : List Nat
  opcode : Nat
  txnew : Option Tx
  txindex : Option Nat
  oracles : ScriptOracles

/-- An operation maps the data stack and keyword context to the new stack
and context, or to the exception raised together with the stack as mutated
up to that point (Python mutates the caller's list in place). -/
def OpFun : Type := Stack → Ctx → Except (PyExc × Stack) (Stack × Ctx)

/-- `stack.append(bytevector(n))`, propagating bytevector's exceptions. -/
def pushBVc (st : Stack) (ctx : Ctx) (n : Int) :
    Except (PyExc × Stack) (Stack × Ctx) :=
  match bytevector n with
  | Except.error e => Except.error (e, st)
  | Except.ok v => Except.ok (st ++ [SItem.bys v], ctx)

/-! ## Script operations (script.py op_*) -/

/-- script.op_nop: no effect. -/
def op_nop : OpFun := fun st ctx => Except.ok (st, ctx)

/-- script.op_false: push a zero-length byte string. -/
def op_false : OpFun := fun st ctx => Except.ok (st ++ [SItem.bys []], ctx)

/-- script.op_pushdata: push `bytes(script[:opcode])` and delete those
bytes from the script; Python slicing silently truncates a short script. -/
def op_pushdata : OpFun := fun st ctx =>
  Except.ok (st ++ [SItem.bys (ctx.script.take ctx.opcode)],
    { ctx with script := ctx.script.drop ctx.opcode })

/-- `script.pop(0)`: consume the next script byte (IndexError when the
script is exhausted). -/
def popByte (st : Stack) (ctx : Ctx) : Except (PyExc × Stack) (Nat × Ctx) :=
  match ctx.script with
  | [] => Except.error (PyExc.indexErr, st)
  | b :: rest => Except.ok (b, { ctx with script := rest })

/-- op_pushdata called with an explicit count (the `opcode=count` keyword
call from op_pushdata1/2/4). -/
def pushdataCount (count : Nat) (st : Stack) (ctx : Ctx) :
    Except (PyExc × Stack) (Stack × Ctx) :=
  Except.ok (st ++ [SItem.bys (ctx.script.take count)],
    { ctx with script := ctx.script.drop count })

/-- script.op_pushdata1: 1-byte count, then that many bytes pushed. -/
def op_pushdata1 : OpFun := fun st ctx => do
  let (count, ctx) ← popByte st ctx
  pushdataCount count st ctx

/-- script.op_pushdata2: little-endian 2-byte count
(`count += 0x100 * script.pop(0)`). -/
def op_pushdata2 : OpFun := fun st ctx => do
  let (b0, ctx) ← popByte st ctx
  let (b1, ctx) ← popByte st ctx
  pushdataCount (b0 + 0x100 * b1) st ctx

/-- script.op_pushdata4 as the source computes it: the three high count
bytes are ADDED to the constants 0x100, 0x10000 and 0x1000000 (`count +=
0x100 + script.pop(0)` and so on) where op_pushdata2 multiplies, so the
count is b0 + b1 + b2 + b3 + 0x1010100, not the little-endian value. -/
def op_pushdata4 : OpFun := fun st ctx => do
  let (b0, ctx) ← popByte st ctx
  let (b1, ctx) ← popByte st ctx
  let (b2, ctx) ← popByte st ctx
  let (b3, ctx) ← popByte st ctx
  pushdataCount (b0 + (0x100 + b1) + (0x10000 + b2) + (0x1000000 + b3)) st ctx

/-- script.skip: run the pushdata operation for the current opcode against
a trash stack, so an inactive branch drops data instead of pushing it.
Opcodes above 0x4e would raise IndexError on the 3-element function list. -/
def skip : OpFun := fun st ctx =>
  if ctx.opcode < 0x4c then
    match op_pushdata [] ctx with
    | Except.error (e, _) => Except.error (e, st)
    | Except.ok (_, ctx2) => Except.ok (st, ctx2)
  else if ctx.opcode = 0x4c then
    match op_pushdata1 [] ctx with
    | Except.error (e, _) => Except.error (e, st)
    | Except.ok (_, ctx2) => Except.ok (st, ctx2)
  else if ctx.opcode = 0x4d then
    match op_pushdata2 [] ctx with
    | Except.error (e, _) => Except.error (e, st)
    | Except.ok (_, ctx2) => Except.ok (st, ctx2)
  else if ctx.opcode = 0x4e then
    match op_pushdata4 [] ctx with
    | Except.error (e, _) => Except.error (e, st)
    | Except.ok (_, ctx2) => Except.ok (st, ctx2)
  else Except.error (PyExc.indexErr, st)

/-- script.op_1negate: push b'\x81'. -/
def op_1negate : OpFun := fun st ctx => Except.ok (st ++ [SItem.bys [0x81]], ctx)

/-- script.op_number: push `bytes([opcode - 0x50])`. -/
def op_number : OpFun := fun st ctx =>
  Except.ok (st ++ [SItem.bys [ctx.opcode - 0x50]], ctx)

/-- script.op_shownumber: op_number, then pop and push its numeric value. -/
def op_shownumber : OpFun := fun st ctx => do
  let (st, ctx) ← op_number st ctx
  let (n, st) ← popNum st
  Except.ok (st ++ [SItem.num n], ctx)

/-- script.op_reserved: raise ReservedWordError. -/
def op_reserved : OpFun := fun st _ => Except.error (PyExc.reservedWord, st)

/-- script.op_if: pop and push its truthiness onto the ifstack. -/
def op_if : OpFun := fun st ctx => do
  let (x, st) ← popS st
  Except.ok (st, { ctx with ifstack := ctx.ifstack ++ [some (truthy x)] })

/-- script.op_notif: pop and push the negated truthiness. -/
def op_notif : OpFun := fun st ctx => do
  let (x, st) ← popS st
  Except.ok (st, { ctx with ifstack := ctx.ifstack ++ [some (!truthy x)] })

/-- script.op_else: `ifstack[-1] = None if ifstack[-1] in [True, None]
else True` (IndexError when the ifstack is empty). -/
def op_else : OpFun := fun st ctx =>
  match ctx.ifstack.getLast? with
  | Option.none => Except.error (PyExc.indexErr, st)
  | some top =>
    let newTop : Option Bool :=
      if top = some true ∨ top = Option.none then Option.none else some true
    Except.ok (st, { ctx with ifstack := ctx.ifstack.dropLast ++ [newTop] })

/-- script.op_endif: pop the ifstack. -/
def op_endif : OpFun := fun st ctx =>
  match ctx.ifstack.getLast? with
  | Option.none => Except.error (PyExc.indexErr, st)
  | some _ => Except.ok (st, { ctx with ifstack := ctx.ifstack.dropLast })

/-- script.op_verify: pop; raise TransactionInvalidError when falsy. -/
def op_verify : OpFun := fun st ctx => do
  let (x, st) ← popS st
  if truthy x then Except.ok (st, ctx)
  else Except.error (PyExc.txInvalid, st)

/-- script.op_return: raise TransactionInvalidError unconditionally. -/
def op_return : OpFun := fun st _ => Except.error (PyExc.txInvalid, st)

/-- script.op_toaltstack: move the top of the stack to the altstack. -/
def op_toaltstack : OpFun := fun st ctx => do
  let (x, st) ← popS st
  Except.ok (st, { ctx with altstack := ctx.altstack ++ [x] })

/-- script.op_fromaltstack: the body `stack.append(altstack.pop())` refers
to the bare name `altstack`, which is not defined at module scope (the
altstack exists only as kwargs['altstack']), so the call raises NameError
before touching either stack. -/
def op_fromaltstack : OpFun := fun st _ => Except.error (PyExc.nameErr, st)

/-- script.op_2drop: `stack[-2:] = []`; no error on a short stack. -/
def op_2drop : OpFun := fun st ctx => Except.ok (st.take (st.length - 2), ctx)

/-- script.op_2dup: `stack.extend(stack[-2:])`. -/
def op_2dup : OpFun := fun st ctx => Except.ok (st ++ st.drop (st.length - 2), ctx)

/-- script.op_3dup: `stack.extend(stack[-3:])`. -/
def op_3dup : OpFun := fun st ctx => Except.ok (st ++ st.drop (st.length - 3), ctx)

/-- script.op_2over: `stack.extend(stack[-4:-2])`. -/
def op_2over : OpFun := fun st ctx => Except.ok (st ++ pySliceS st (-4) (-2), ctx)

/-- script.op_2rot: `stack.extend(stack[-6:-4]); stack[-8:-6] = []`. -/
def op_2rot : OpFun := fun st ctx =>
  let s1 := st ++ pySliceS st (-6) (-4)
  Except.ok (s1.take (pyBound s1.length (-8)) ++ s1.drop (pyBound s1.length (-6)), ctx)

/-- script.op_2swap: the simultaneous slice assignment
`stack[-2:], stack[-4:-2] = stack[-4:-2], stack[-2:]`, which evaluates the
right side first, then assigns left to right. -/
def op_2swap : OpFun := fun st ctx =>
  let old42 := pySliceS st (-4) (-2)
  let old2 := st.drop (pyBound st.length (-2))
  let s1 := st.take (pyBound st.length (-2)) ++ old42
  Except.ok (s1.take (pyBound s1.length (-4)) ++ old2 ++
    s1.drop (pyBound s1.length (-2)), ctx)

/-- script.op_ifdup: duplicate the top item when it is truthy
(IndexError on an empty stack). -/
def op_ifdup : OpFun := fun st ctx =>
  match st.getLast? with
  | Option.none => Except.error (PyExc.indexErr, st)
  | some x => Except.ok (if truthy x then st ++ [x] else st, ctx)

/-- script.op_depth: push `len(stack)` (a Python int). -/
def op_depth : OpFun := fun st ctx =>
  Except.ok (st ++ [SItem.num (st.length : Int)], ctx)

/-- script.op_drop: pop and discard. -/
def op_drop : OpFun := fun st ctx => do
  let (_, st) ← popS st
  Except.ok (st, ctx)

/-- script.op_dup: push a copy of `stack[-1]`. -/
def op_dup : OpFun := fun st ctx =>
  match st.getLast? with
  | Option.none => Except.error (PyExc.indexErr, st)
  | some x => Except.ok (st ++ [x], ctx)

/-- script.op_nip: `stack.pop(-2)` discarded. -/
def op_nip : OpFun := fun st ctx =>
  match pyPopIdx st (-2) with
  | Option.none => Except.error (PyExc.indexErr, st)
  | some (_, st2) => Except.ok (st2, ctx)

/-- script.op_over: push a copy of `stack[-2]`. -/
def op_over : OpFun := fun st ctx =>
  match pyGetIdx st (-2) with
  | Option.none => Except.error (PyExc.indexErr, st)
  | some x => Except.ok (st ++ [x], ctx)

/-- script.op_pick: `stack.append(stack[-1 - stack.pop()])`; the popped
item is used directly as an int (TypeError when it is bytes or None). -/
def op_pick : OpFun := fun st ctx => do
  let (x, st) ← popS st
  match intOf x with
  | Except.error e => Except.error (e, st)
  | Except.ok n =>
    match pyGetIdx st (-1 - n) with
    | Option.none => Except.error (PyExc.indexErr, st)
    | some v => Except.ok (st ++ [v], ctx)

/-- script.op_roll: `stack.append(stack.pop(-1 - stack.pop()))`. -/
def op_roll : OpFun := fun st ctx => do
  let (x, st) ← popS st
  match intOf x with
  | Except.error e => Except.error (e, st)
  | Except.ok n =>
    match pyPopIdx st (-1 - n) with
    | Option.none => Except.error (PyExc.indexErr, st)
    | some (v, st2) => Except.ok (st2 ++ [v], ctx)

/-- script.op_rot: `stack.append(stack.pop(-3))`. -/
def op_rot : OpFun := fun st ctx =>
  match pyPopIdx st (-3) with
  | Option.none => Except.error (PyExc.indexErr, st)
  | some (v, st2) => Except.ok (st2 ++ [v], ctx)

/-- script.op_swap: `stack.append(stack.pop(-2))`. -/
def op_swap : OpFun := fun st ctx =>
  match pyPopIdx st (-2) with
  | Option.none => Except.error (PyExc.indexErr, st)
  | some (v, st2) => Except.ok (st2 ++ [v], ctx)

/-- script.op_tuck: `stack.insert(-2, stack[-1])`. -/
def op_tuck : OpFun := fun st ctx =>
  match st.getLast? with
  | Option.none => Except.error (PyExc.indexErr, st)
  | some x => Except.ok (pyInsert st (-2) x, ctx)

/-- script.op_cat: pop a suffix and run `stack[-1] += suffix`; byte strings
concatenate, int-like pairs add, other combinations raise TypeError. -/
def op_cat : OpFun := fun st ctx => do
  let (sfx, st) ← popS st
  match st.getLast? with
  | Option.none => Except.error (PyExc.indexErr, st)
  | some top =>
    match top, sfx with
    | SItem.bys a, SItem.bys b =>
      Except.ok (st.dropLast ++ [SItem.bys (a ++ b)], ctx)
    | _, _ =>
      match intOf top, intOf sfx with
      | Except.ok m, Except.ok n =>
        Except.ok (st.dropLast ++ [SItem.num (m + n)], ctx)
      | _, _ => Except.error (PyExc.typeErr, st)

/-- script.op_substr: pop length then beginning, and run
`stack[-1] = stack[-1][beginning:beginning + length]`; the slice bounds
must be int-like and the sliced item bytes, else TypeError. -/
def op_substr : OpFun := fun st ctx => do
  let (lenI, st) ← popS st
  let (begI, st) ← popS st
  match st.getLast? with
  | Option.none => Except.error (PyExc.indexErr, st)
  | some top =>
    match intOf begI, intOf lenI with
    | Except.ok b, Except.ok l =>
      match top with
      | SItem.bys bs =>
        Except.ok (st.dropLast ++ [SItem.bys (pySlice bs b (b + l))], ctx)
      | _ => Except.error (PyExc.typeErr, st)
    | _, _ => Except.error (PyExc.typeErr, st)

/-- script.op_left: `index = number(stack.pop()); assert_true(index >= 0);
stack[-1] = stack[-1][:index]`. -/
def op_left : OpFun := fun st ctx => do
  let (n, st) ← popNum st
  if n < 0 then Except.error (PyExc.assertionErr, st)
  else
    match st.getLast? with
    | Option.none => Except.error (PyExc.indexErr, st)
    | some top =>
      match top with
      | SItem.bys bs =>
        Except.ok (st.dropLast ++ [SItem.bys (bs.take n.toNat)], ctx)
      | _ => Except.error (PyExc.typeErr, st)

/-- script.op_right: like op_left but `stack[-1] = stack[-1][index:]`. -/
def op_right : OpFun := fun st ctx => do
  let (n, st) ← popNum st
  if n < 0 then Except.error (PyExc.assertionErr, st)
  else
    match st.getLast? with
    | Option.none => Except.error (PyExc.indexErr, st)
    | some top =>
      match top with
      | SItem.bys bs =>
        Except.ok (st.dropLast ++ [SItem.bys (bs.drop n.toNat)], ctx)
      | _ => Except.error (PyExc.typeErr, st)

/-- script.op_size: push `bytevector(len(stack[-1]))` without popping;
`len` of a non-bytes item raises TypeError. -/
def op_size : OpFun := fun st ctx =>
  match st.getLast? with
  | Option.none => Except.error (PyExc.indexErr, st)
  | some top =>
    match top with
    | SItem.bys bs => pushBVc st ctx (bs.length : Int)
    | _ => Except.error (PyExc.typeErr, st)

/-- script.op_invert: push `bytevector(~number(stack.pop()))`
(Python `~x` is `-x - 1`). -/
def op_invert : OpFun := fun st ctx => do
  let (n, st) ← popNum st
  pushBVc st ctx (-(n + 1))

/-- script.op_and: bitwise AND of the two popped numbers. -/
def op_and : OpFun := fun st ctx => do
  let (a, st) ← popNum st
  let (b, st) ← popNum st
  pushBVc st ctx (Int.land a b)

/-- script.op_or: bitwise OR of the two popped numbers. -/
def op_or : OpFun := fun st ctx => do
  let (a, st) ← popNum st
  let (b, st) ← popNum st
  pushBVc st ctx (Int.lor a b)

/-- script.op_xor: bitwise XOR of the two popped numbers. -/
def op_xor : OpFun := fun st ctx => do
  let (a, st) ← popNum st
  let (b, st) ← popNum st
  pushBVc st ctx (Int.xor a b)

/-- script.op_equal: push `bytevector(number(pop) == number(pop))`. -/
def op_equal : OpFun := fun st ctx => do
  let (a, st) ← popNum st
  let (b, st) ← popNum st
  pushBVc st ctx (if a = b then 1 else 0)

/-- script.op_equalverify: op_equal then op_verify. -/
def op_equalverify : OpFun := fun st ctx => do
  let (st, ctx) ← op_equal st ctx
  op_verify st ctx

/-- script.op_add: `bytevector(number(pop) + number(pop))`. -/
def op_add : OpFun := fun st ctx => do
  let (a, st) ← popNum st
  let (b, st) ← popNum st
  pushBVc st ctx (a + b)

/-- script.op_1add: push b'\x01' and run op_add. -/
def op_1add : OpFun := fun st ctx => op_add (st ++ [SItem.bys [1]]) ctx

/-- script.op_1sub: push b'\x81' (Script -1) and run op_add. -/
def op_1sub : OpFun := fun st ctx => op_add (st ++ [SItem.bys [0x81]]) ctx

/-- script.op_2mul: `bytevector(number(pop) * 2)`. -/
def op_2mul : OpFun := fun st ctx => do
  let (n, st) ← popNum st
  pushBVc st ctx (n * 2)

/-- script.op_2div: `bytevector(number(pop) // 2)` (Python floor division). -/
def op_2div : OpFun := fun st ctx => do
  let (n, st) ← popNum st
  pushBVc st ctx (Int.fdiv n 2)

/-- script.op_negate: `bytevector(-number(pop))`. -/
def op_negate : OpFun := fun st ctx => do
  let (n, st) ← popNum st
  pushBVc st ctx (-n)

/-- script.op_abs: the source passes the bound method `stack.pop` itself
(no parentheses) to `number`, which subscripts it and falls through to
`int(stack.pop)`, raising TypeError; the stack is never popped. -/
def op_abs : OpFun := fun st _ => Except.error (PyExc.typeErr, st)

/-- script.op_not: `bytevector(not state) if state in [0, 1] else b''`. -/
def op_not : OpFun := fun st ctx => do
  let (n, st) ← popNum st
  if n = 0 ∨ n = 1 then pushBVc st ctx (if n = 0 then 1 else 0)
  else Except.ok (st ++ [SItem.bys []], ctx)

/-- script.op_0notequal: `bytevector(bool(number(pop)))`. -/
def op_0notequal : OpFun := fun st ctx => do
  let (n, st) ← popNum st
  pushBVc st ctx (if n = 0 then 0 else 1)

/-- script.op_sub: `bytevector(-number(pop) + number(pop))`. -/
def op_sub : OpFun := fun st ctx => do
  let (a, st) ← popNum st
  let (b, st) ← popNum st
  pushBVc st ctx (-a + b)

/-- script.op_mul: product of the two popped numbers. -/
def op_mul : OpFun := fun st ctx => do
  let (a, st) ← popNum st
  let (b, st) ← popNum st
  pushBVc st ctx (a * b)

/-- script.op_div: the divisor is popped first; ZeroDivisionError after
both pops when it is 0, else Python floor division. -/
def op_div : OpFun := fun st ctx => do
  let (a, st) ← popNum st
  let (b, st) ← popNum st
  if a = 0 then Except.error (PyExc.zeroDivisionErr, st)
  else pushBVc st ctx (Int.fdiv b a)

/-- script.op_mod: Python `%` (remainder with the divisor's sign). -/
def op_mod : OpFun := fun st ctx => do
  let (a, st) ← popNum st
  let (b, st) ← popNum st
  if a = 0 then Except.error (PyExc.zeroDivisionErr, st)
  else pushBVc st ctx (Int.fmod b a)

/-- script.op_lshift: `bytevector(number(pop2) << number(pop1))`;
a negative shift raises ValueError. -/
def op_lshift : OpFun := fun st ctx => do
  let (a, st) ← popNum st
  let (b, st) ← popNum st
  if a < 0 then Except.error (PyExc.valueErr, st)
  else pushBVc st ctx (b * 2 ^ a.toNat)

/-- script.op_rshift: arithmetic right shift (floor division by 2^n). -/
def op_rshift : OpFun := fun st ctx => do
  let (a, st) ← popNum st
  let (b, st) ← popNum st
  if a < 0 then Except.error (PyExc.valueErr, st)
  else pushBVc st ctx (Int.fdiv b (2 ^ a.toNat))

/-- script.op_booland: Python `and` of the two popped numbers (the first
pop when it is 0, else the second). -/
def op_booland : OpFun := fun st ctx => do
  let (a, st) ← popNum st
  let (b, st) ← popNum st
  pushBVc st ctx (if a = 0 then 0 else b)

/-- script.op_boolor: Python `or` (the first pop unless it is 0). -/
def op_boolor : OpFun := fun st ctx => do
  let (a, st) ← popNum st
  let (b, st) ← popNum st
  pushBVc st ctx (if a = 0 then b else a)

/-- script.op_numequal: `bytevector(number(pop) == number(pop))`. -/
def op_numequal : OpFun := fun st ctx => do
  let (a, st) ← popNum st
  let (b, st) ← popNum st
  pushBVc st ctx (if a = b then 1 else 0)

/-- script.op_numequalverify: op_numequal then op_verify. -/
def op_numequalverify : OpFun := fun st ctx => do
  let (st, ctx) ← op_numequal st ctx
  op_verify st ctx

/-- script.op_numnotequal: `bytevector(number(pop) != number(pop))`. -/
def op_numnotequal : OpFun := fun st ctx => do
  let (a, st) ← popNum st
  let (b, st) ← popNum st
  pushBVc st ctx (if a = b then 0 else 1)

/-- script.op_lessthan: `bytevector(number(pop1) > number(pop2))`
(the top of the stack is popped first). -/
def op_lessthan : OpFun := fun st ctx => do
  let (a, st) ← popNum st
  let (b, st) ← popNum st
  pushBVc st ctx (if b < a then 1 else 0)

/-- script.op_greaterthen (the source's name): `bytevector(pop1 < pop2)`. -/
def op_greaterthen : OpFun := fun st ctx => do
  let (a, st) ← popNum st
  let (b, st) ← popNum st
  pushBVc st ctx (if a < b then 1 else 0)

/-- script.op_lessthanorequal: `bytevector(pop1 >= pop2)`. -/
def op_lessthanorequal : OpFun := fun st ctx => do
  let (a, st) ← popNum st
  let (b, st) ← popNum st
  pushBVc st ctx (if b ≤ a then 1 else 0)

/-- script.op_greaterthanorequal: `bytevector(pop1 <= pop2)`. -/
def op_greaterthanorequal : OpFun := fun st ctx => do
  let (a, st) ← popNum st
  let (b, st) ← popNum st
  pushBVc st ctx (if a ≤ b then 1 else 0)

/-- script.op_min: the smaller of the two popped numbers. -/
def op_min : OpFun := fun st ctx => do
  let (a, st) ← popNum st
  let (b, st) ← popNum st
  pushBVc st ctx (min a b)

/-- script.op_max: the greater of the two popped numbers. -/
def op_max : OpFun := fun st ctx => do
  let (a, st) ← popNum st
  let (b, st) ← popNum st
  pushBVc st ctx (max a b)

/-- script.op_within: pop max, min, then x; push
`bytevector(min <= x < max)`. -/
def op_within : OpFun := fun st ctx => do
  let (mx, st) ← popNum st
  let (mn, st) ← popNum st
  let (x, st) ← popNum st
  pushBVc st ctx (if mn ≤ x ∧ x < mx then 1 else 0)

/-- script.op_ripemd160: pops its data, then evaluates
`ripemd160.update(data).digest()` — `update` returns None, so `.digest()`
raises AttributeError before anything is pushed. -/
def op_ripemd160 : OpFun := fun st _ => do
  let (_, st) ← popS st
  Except.error (PyExc.attributeErr, st)

/-- script.op_sha1: push the sha1 digest of the popped byte string
(hashlib rejects non-bytes with TypeError). -/
def op_sha1 : OpFun := fun st ctx => do
  let (x, st) ← popS st
  match x with
  | SItem.bys bs => Except.ok (st ++ [SItem.bys (ctx.oracles.sha1 bs)], ctx)
  | _ => Except.error (PyExc.typeErr, st)

/-- script.op_sha256: push the sha256 digest of the popped byte string. -/
def op_sha256 : OpFun := fun st ctx => do
  let (x, st) ← popS st
  match x with
  | SItem.bys bs => Except.ok (st ++ [SItem.bys (ctx.oracles.sha256 bs)], ctx)
  | _ => Except.error (PyExc.typeErr, st)

/-- script.op_hash160: RIPEMD-160 of the SHA-256 of the popped bytes
(here the fresh hasher is updated before digesting, so it works). -/
def op_hash160 : OpFun := fun st ctx => do
  let (x, st) ← popS st
  match x with
  | SItem.bys bs =>
    Except.ok (st ++ [SItem.bys (ctx.oracles.ripemd160 (ctx.oracles.sha256 bs))], ctx)
  | _ => Except.error (PyExc.typeErr, st)

/-- script.op_hash256: double SHA-256 of the popped bytes. -/
def op_hash256 : OpFun := fun st ctx => do
  let (x, st) ← popS st
  match x with
  | SItem.bys bs =>
    Except.ok (st ++ [SItem.bys (ctx.oracles.sha256 (ctx.oracles.sha256 bs))], ctx)
  | _ => Except.error (PyExc.typeErr, st)

/-- script.op_codeseparator: append the opcode's own offset,
`len(reference) - len(script) - 1`, to the mark list (the script has
already had the current opcode popped, so the difference is positive). -/
def op_codeseparator : OpFun := fun st ctx =>
  Except.ok (st,
    { ctx with mark := ctx.mark ++ [ctx.reference.length - ctx.script.length - 1] })

/-- op_checksig's separator-removal loop: `for offset in
range(len(checker) - 1, 0, -1)`, removing `checker[offset]` and
`subscript[offset]` when the parsed opcode there is 0xab.  The recursion
argument is the offset being examined; offset 0 is never examined, exactly
as in the source's `range(..., 0, -1)`. -/
def checksigRemoveSeps : Nat → List (Option Nat) → List Nat →
    List (Option Nat) × List Nat
  | 0, checker, subscript => (checker, subscript)
  | offset + 1, checker, subscript =>
    if checker.get? (offset + 1) = some (some 0xab) then
      checksigRemoveSeps offset (checker.eraseIdx (offset + 1))
        (subscript.eraseIdx (offset + 1))
    else checksigRemoveSeps offset checker subscript

/-- The subscript op_checksig hashes: `reference[mark[-1]:]` with the
separator-removal loop applied (checker is `parsed[mark[-1]:]`). -/
def checksig_subscript (reference : List Nat) (parsed : List (Option Nat))
    (markLast : Nat) : List Nat :=
  let subscript := reference.drop markLast
  let checker := parsed.drop markLast
  (checksigRemoveSeps (checker.length - 1) checker subscript).2

/-- script.op_checksig: pop pubkey and signature, build the subscript from
the last code-separator mark, pop the hash type off the signature, blank
every input's raw_length/script in a copy of the transaction, install the
varint-length-prefixed subscript at the validated input, serialize, append
the 4-byte little-endian hash type, double-SHA-256, and push the external
verifier's result. -/
def op_checksig : OpFun := fun st ctx => do
  let (pubkey, st) ← popS st
  let (sigItem, st) ← popS st
  match sigItem with
  | SItem.bys signature =>
    match ctx.mark.getLast? with
    | Option.none => Except.error (PyExc.indexErr, st)
    | some markLast =>
      match ctx.parsed with
      | Option.none => Except.error (PyExc.typeErr, st)
      | some parsed =>
        let subscript := checksig_subscript ctx.reference parsed markLast
        match signature.getLast? with
        | Option.none => Except.error (PyExc.indexErr, st)
        | some hashtype =>
          let sig2 := signature.dropLast
          let hashtypeCode := toLE 4 hashtype
          match ctx.txnew with
          | Option.none => Except.error (PyExc.typeErr, st)
          | some tx =>
            let blanked := tx.inputs.map
              (fun inp => { inp with raw_length := [0], script := [] })
            let txcopy := { tx with inputs := blanked }
            match ctx.txindex with
            | Option.none => Except.error (PyExc.typeErr, st)
            | some idx =>
              match txcopy.inputs.get? idx with
              | Option.none => Except.error (PyExc.indexErr, st)
              | some inp =>
                let newInp := { inp with
                  raw_length := varint_length subscript, script := subscript }
                let txcopy2 := { txcopy with inputs := txcopy.inputs.set idx newInp }
                let serialized := tx_serialize txcopy2 ++ hashtypeCode
                let hashed := ctx.oracles.sha256 (ctx.oracles.sha256 serialized)
                match pubkey with
                | SItem.bys pk =>
                  Except.ok
                    (st ++ [SItem.num (ctx.oracles.ecdsaVerify pk hashed sig2)],
                      ctx)
                | _ => Except.error (PyExc.typeErr, st)
  | _ => Except.error (PyExc.typeErr, st)

/-- script.op_checksigverify: op_checksig then op_verify. -/
def op_checksigverify : OpFun := fun st ctx => do
  let (st, ctx) ← op_checksig st ctx
  op_verify st ctx

/-- script.op_checkmultisig: raises NotImplementedError. -/
def op_checkmultisig : OpFun := fun st _ =>
  Except.error (PyExc.notImplemented, st)

/-- script.op_checkmultisigverify: op_checkmultisig (which raises) then
op_verify. -/
def op_checkmultisigverify : OpFun := fun st ctx => do
  let (st, ctx) ← op_checkmultisig st ctx
  op_verify st ctx

/-- script.op_checklocktimeverify: raises NotImplementedError. -/
def op_checklocktimeverify : OpFun := fun st _ =>
  Except.error (PyExc.notImplemented, st)

/-- script.op_checksequenceverify: raises NotImplementedError. -/
def op_checksequenceverify : OpFun := fun st _ =>
  Except.error (PyExc.notImplemented, st)

/-- script.SCRIPT_OPS, entry for entry.  The 0x6c FROMALTSTACK entry is
reproduced as the source wrote it: a missing comma between
'op_fromaltstack' and 'op_nop' concatenates the two strings, leaving a
TWO-element list whose second element is 'op_fromaltstackop_nop'.  The
0x89/0x8a entries name 'reserved', 0xa0 names 'op_greaterthan' and 0xaf
names 'checkmultisigverify' — none of which are defined functions. -/
def SCRIPT_OPS : List (Nat × List String) :=
  [(0x00, ["FALSE", "op_false", "op_nop"])]
  ++ (List.range 0x4b).map (fun i =>
      (i + 1, ["op_pushdata", "op_pushdata", "skip"]))
  ++ [(0x4c, ["op_pushdata1", "op_pushdata1", "skip"]),
      (0x4d, ["op_pushdata2", "op_pushdata2", "skip"]),
      (0x4e, ["op_pushdata4", "op_pushdata4", "skip"]),
      (0x4f, ["-1", "op_1negate", "op_nop"]),
      (0x50, ["RESERVED", "op_reserved", "op_nop"]),
      (0x51, ["TRUE", "op_number", "op_nop"])]
  ++ (List.range 15).map (fun i =>
      (0x52 + i, ["op_shownumber", "op_number", "op_nop"]))
  ++ [(0x61, ["NOP", "op_nop", "op_nop"]),
      (0x62, ["VER", "op_reserved", "op_nop"]),
      (0x63, ["IF", "op_if", "op_nop"]),
      (0x64, ["NOTIF", "op_notif", "op_nop"]),
      (0x65, ["VERIF", "op_reserved", "op_nop"]),
      (0x66, ["VERNOTIF", "op_reserved", "op_nop"]),
      (0x67, ["ELSE", "op_else", "op_notif"]),
      (0x68, ["ENDIF", "op_endif", "op_nop"]),
      (0x69, ["VERIFY", "op_verify", "op_nop"]),
      (0x6a, ["RETURN", "op_return", "op_nop"]),
      (0x6b, ["TOALTSTACK", "op_toaltstack", "op_nop"]),
      (0x6c, ["FROMALTSTACK", "op_fromaltstackop_nop"]),
      (0x6d, ["2DROP", "op_2drop", "op_nop"]),
      (0x6e, ["2DUP", "op_2dup", "op_nop"]),
      (0x6f, ["3DUP", "op_3dup", "op_nop"]),
      (0x70, ["2OVER", "op_2over", "op_nop"]),
      (0x71, ["2ROT", "op_2rot", "op_nop"]),
      (0x72, ["2SWAP", "op_2swap", "op_nop"]),
      (0x73, ["IFDUP", "op_ifdup", "op_nop"]),
      (0x74, ["DEPTH", "op_depth", "op_nop"]),
      (0x75, ["DROP", "op_drop", "op_nop"]),
      (0x76, ["DUP", "op_dup", "op_nop"]),
      (0x77, ["NIP", "op_nip", "op_nop"]),
      (0x78, ["OVER", "op_over", "op_nop"]),
      (0x79, ["PICK", "op_pick", "op_nop"]),
      (0x7a, ["ROLL", "op_roll", "op_nop"]),
      (0x7b, ["ROT", "op_rot", "op_nop"]),
      (0x7c, ["SWAP", "op_swap", "op_nop"]),
      (0x7d, ["TUCK", "op_tuck", "op_nop"]),
      (0x7e, ["CAT", "op_cat", "op_nop"]),
      (0x7f, ["SUBSTR", "op_substr", "op_nop"]),
      (0x80, ["LEFT", "op_left", "op_nop"]),
      (0x81, ["RIGHT", "op_right", "op_nop"]),
      (0x82, ["SIZE", "op_size", "op_nop"]),
      (0x83, ["INVERT", "op_invert", "op_nop"]),
      (0x84, ["AND", "op_and", "op_nop"]),
      (0x85, ["OR", "op_or", "op_nop"]),
      (0x86, ["XOR", "op_xor", "op_nop"]),
      (0x87, ["EQUAL", "op_equal", "op_nop"]),
      (0x88, ["EQUALVERIFY", "op_equalverify", "op_nop"]),
      (0x89, ["RESERVED1", "reserved", "op_nop"]),
      (0x8a, ["RESERVED2", "reserved", "op_nop"]),
      (0x8b, ["1ADD", "op_1add", "op_nop"]),
      (0x8c, ["1SUB", "op_1sub", "op_nop"]),
      (0x8d, ["2MUL", "op_2mul", "op_nop"]),
      (0x8e, ["2DIV", "op_2div", "op_nop"]),
      (0x8f, ["NEGATE", "op_negate", "op_nop"]),
      (0x90, ["ABS", "op_abs", "op_nop"]),
      (0x91, ["NOT", "op_not", "op_nop"]),
      (0x92, ["0NOTEQUAL", "op_0notequal", "op_nop"]),
      (0x93, ["ADD", "op_add", "op_nop"]),
      (0x94, ["SUB", "op_sub", "op_nop"]),
      (0x95, ["MUL", "op_mul", "op_nop"]),
      (0x96, ["DIV", "op_div", "op_nop"]),
      (0x97, ["MOD", "op_mod", "op_nop"]),
      (0x98, ["LSHIFT", "op_lshift", "op_nop"]),
      (0x99, ["RSHIFT", "op_rshift", "op_nop"]),
      (0x9a, ["BOOLAND", "op_booland", "op_nop"]),
      (0x9b, ["BOOLOR", "op_boolor", "op_nop"]),
      (0x9c, ["NUMEQUAL", "op_numequal", "op_nop"]),
      (0x9d, ["NUMEQUALVERIFY", "op_numequalverify", "op_nop"]),
      (0x9e, ["NUMNOTEQUAL", "op_numnotequal", "op_nop"]),
      (0x9f, ["LESSTHAN", "op_lessthan", "op_nop"]),
      (0xa0, ["GREATERTHAN", "op_greaterthan", "op_nop"]),
      (0xa1, ["LESSTHANOREQUAL", "op_lessthanorequal", "op_nop"]),
      (0xa2, ["GREATERTHANOREQUAL", "op_greaterthanorequal", "op_nop"]),
      (0xa3, ["MIN", "op_min", "op_nop"]),
      (0xa4, ["MAX", "op_max", "op_nop"]),
      (0xa5, ["WITHIN", "op_within", "op_nop"]),
      (0xa6, ["RIPEMD160", "op_ripemd160", "op_nop"]),
      (0xa7, ["SHA1", "op_sha1", "op_nop"]),
      (0xa8, ["SHA256", "op_sha256", "op_nop"]),
      (0xa9, ["HASH160", "op_hash160", "op_nop"]),
      (0xaa, ["HASH256", "op_hash256", "op_nop"]),
      (0xab, ["CODESEPARATOR", "op_codeseparator", "op_codeseparator"]),
      (0xac, ["CHECKSIG", "op_checksig", "op_nop"]),
      (0xad, ["CHECKSIGVERIFY", "op_checksigverify", "op_nop"]),
      (0xae, ["CHECKMULTISIG", "op_checkmultisig", "op_nop"]),
      (0xaf, ["CHECKMULTISIGVERIFY", "checkmultisigverify", "op_nop"]),
      (0xb0, ["NOP1", "op_nop", "op_nop"]),
      (0xb1, ["CHECKLOCKTIMEVERIFY", "op_checklocktimeverify", "op_nop"]),
      (0xb2, ["CHECKSEQUENCEVERIFY", "op_checksequenceverify", "op_nop"])]
  ++ (List.range 7).map (fun i =>
      (0xb3 + i, ["NOP" ++ toString (i + 4), "op_nop", "op_nop"]))

/-- script.DISABLED: the only opcodes the run loop removes from its
dispatch table. -/
def DISABLED : List Nat := [0x83, 0x84, 0x85, 0x86]

/-- `dict(SCRIPT_OPS)` with the DISABLED keys popped, as `run` builds it
(SCRIPT_OPS keys are unique, so filtering the association list agrees
with the dict). -/
def runOpcodes : List (Nat × List String) :=
  SCRIPT_OPS.filter (fun e => !(DISABLED.contains e.1))

/-- `opcodes.get(opcode, None)` on an association list. -/
def tableGet (t : List (Nat × List String)) (k : Nat) : Option (List String) :=
  (t.find? (fun e => e.1 == k)).map Prod.snd

/-- The module-level functions of script.py that the run loop can dispatch
to by name; a name absent here ('op_fromaltstackop_nop', 'reserved',
'op_greaterthan', 'checkmultisigverify') makes `globals()[run_op]` raise
KeyError. -/
def scriptGlobals : List (String × OpFun) :=
  [("op_nop", op_nop), ("skip", skip), ("op_false", op_false),
   ("op_pushdata", op_pushdata), ("op_pushdata1", op_pushdata1),
   ("op_pushdata2", op_pushdata2), ("op_pushdata4", op_pushdata4),
   ("op_1negate", op_1negate), ("op_number", op_number),
   ("op_shownumber", op_shownumber), ("op_reserved", op_reserved),
   ("op_if", op_if), ("op_notif", op_notif), ("op_else", op_else),
   ("op_endif", op_endif), ("op_verify", op_verify), ("op_return", op_return),
   ("op_toaltstack", op_toaltstack), ("op_fromaltstack", op_fromaltstack),
   ("op_2drop", op_2drop), ("op_2dup", op_2dup), ("op_3dup", op_3dup),
   ("op_2over", op_2over), ("op_2rot", op_2rot), ("op_2swap", op_2swap),
   ("op_ifdup", op_ifdup), ("op_depth", op_depth), ("op_drop", op_drop),
   ("op_dup", op_dup), ("op_nip", op_nip), ("op_over", op_over),
   ("op_pick", op_pick), ("op_roll", op_roll), ("op_rot", op_rot),
   ("op_swap", op_swap), ("op_tuck", op_tuck), ("op_cat", op_cat),
   ("op_substr", op_substr), ("op_left", op_left), ("op_right", op_right),
   ("op_size", op_size), ("op_invert", op_invert), ("op_and", op_and),
   ("op_or", op_or), ("op_xor", op_xor), ("op_equal", op_equal),
   ("op_equalverify", op_equalverify), ("op_1add", op_1add),
   ("op_1sub", op_1sub), ("op_2mul", op_2mul), ("op_2div", op_2div),
   ("op_negate", op_negate), ("op_abs", op_abs), ("op_not", op_not),
   ("op_0notequal", op_0notequal), ("op_add", op_add), ("op_sub", op_sub),
   ("op_mul", op_mul), ("op_div", op_div), ("op_mod", op_mod),
   ("op_lshift", op_lshift), ("op_rshift", op_rshift),
   ("op_booland", op_booland), ("op_boolor", op_boolor),
   ("op_numequal", op_numequal), ("op_numequalverify", op_numequalverify),
   ("op_numnotequal", op_numnotequal), ("op_lessthan", op_lessthan),
   ("op_greaterthen", op_greaterthen),
   ("op_lessthanorequal", op_lessthanorequal),
   ("op_greaterthanorequal", op_greaterthanorequal),
   ("op_min", op_min), ("op_max", op_max), ("op_within", op_within),
   ("op_ripemd160", op_ripemd160), ("op_sha1", op_sha1),
   ("op_sha256", op_sha256), ("op_hash160", op_hash160),
   ("op_hash256", op_hash256), ("op_codeseparator", op_codeseparator),
   ("op_checksig", op_checksig), ("op_checksigverify", op_checksigverify),
   ("op_checkmultisig", op_checkmultisig),
   ("op_checkmultisigverify", op_checkmultisigverify),
   ("op_checklocktimeverify", op_checklocktimeverify),
   ("op_checksequenceverify", op_checksequenceverify)]

/-- `globals()[name]` restricted to the dispatchable operations. -/
def globalsFind (name : String) : Option OpFun :=
  (scriptGlobals.find? (fun e => e.1 == name)).map Prod.snd

/-- The run loop's branch test `kwargs['ifstack'] and not
kwargs['ifstack'][-1]`: a nonempty ifstack whose last entry is False or
None selects the inactive-branch operation. -/
def ifstackLastFalsy (ifstack : List (Option Bool)) : Bool :=
  match ifstack.getLast? with
  | Option.none => false
  | some (some b) => !b
  | some Option.none => true

/-- The while loop of script.run, with fuel (each iteration consumes at
least the opcode byte and no operation lengthens the script, so
`script.length + 1` fuel never runs out). -/
def runLoop : Nat → Stack → Ctx → Except (PyExc × Stack) Stack
  | 0, st, _ => Except.error (PyExc.fuelOut, st)
  | fuel + 1, st, ctx =>
    match ctx.script with
    | [] => Except.ok st
    | opcode :: rest =>
      let ctx1 := { ctx with script := rest, opcode := opcode }
      match tableGet runOpcodes opcode with
      | Option.none => Except.error (PyExc.notImplemented, st)
      | some operation =>
        match operation.get? (if ifstackLastFalsy ctx1.ifstack then 2 else 1) with
        | Option.none => Except.error (PyExc.indexErr, st)
        | some opName =>
          match globalsFind opName with
          | Option.none => Except.error (PyExc.keyErr, st)
          | some f =>
            match f st ctx1 with
            | Except.error e => Except.error e
            | Except.ok (st2, ctx2) => runLoop fuel st2 ctx2

/-- script.run: set up the keyword context, execute the loop, and catch
only TransactionInvalidError and ReservedWordError, appending the None
sentinel to the stack as mutated so far; every other exception
propagates. -/
def run (scriptbinary : List Nat) (txnew : Option Tx) (txindex : Option Nat)
    (parsed : Option (List (Option Nat))) (stack : Stack)
    (oracles : ScriptOracles) : Except (PyExc × Stack) Stack :=
  let ctx : Ctx := {
    script := scriptbinary, reference := scriptbinary, parsed := parsed,
    altstack := [], ifstack := [], mark := [0], opcode := 0,
    txnew := txnew, txindex := txindex, oracles := oracles }
  match runLoop (scriptbinary.length + 1) stack ctx with
  | Except.ok st => Except.ok st
  | Except.error (e, st) =>
    if e = PyExc.txInvalid ∨ e = PyExc.reservedWord then
      Except.ok (st ++ [SItem.noneV])
    else Except.error (e, st)

/-- A concrete oracle assignment for closed test evaluations (the digests
and the verifier are irrelevant to the properties tested with it). -/
def zeroOracles : ScriptOracles :=
  { sha256 := fun _ => [], sha1 := fun _ => [],
    ripemd160 := fun _ => [], ecdsaVerify := fun _ _ _ => 0 }

/-! ## C5, C6: disabled opcodes and run's error handling -/

theorem tableGet_6c :
    tableGet runOpcodes 0x6c = some ["FROMALTSTACK", "op_fromaltstackop_nop"] := rfl

theorem globalsFind_fromaltstackop_nop :
    globalsFind "op_fromaltstackop_nop" = Option.none := rfl

/-- C5 counterexample: CAT (0x7e), 2MUL (0x8d) and 2DIV (0x8e) are not in
DISABLED, and running each of them EXECUTES the operation instead of
raising anything: CAT concatenates, 2MUL doubles, 2DIV halves. -/
theorem cat_not_disabled :
    (0x7e ∉ DISABLED ∧ 0x8d ∉ DISABLED ∧ 0x8e ∉ DISABLED) ∧
    run [0x7e] Option.none Option.none Option.none
      [SItem.bys [0x61, 0x62], SItem.bys [0x63, 0x64]] zeroOracles =
      Except.ok [SItem.bys [0x61, 0x62, 0x63, 0x64]] ∧
    run [0x8d] Option.none Option.none Option.none [SItem.bys [3]] zeroOracles =
      Except.ok [SItem.bys [6]] ∧
    run [0x8e] Option.none Option.none Option.none [SItem.bys [3]] zeroOracles =
      Except.ok [SItem.bys [1]] := by
  exact ⟨by decide, rfl, rfl, rfl⟩

/-- C5 (amended): DISABLED holds exactly INVERT (0x83), AND (0x84),
OR (0x85) and XOR (0x86); `run` pops those keys from its dispatch table, so
executing any of them on any stack raises NotImplementedError (there is no
DisabledOpcodeError class in the code), which `run` does not catch.  The
INVERT entry is still present in SCRIPT_OPS itself, so the rejection
happens at dispatch, before the operation runs. -/
theorem disabled_opcodes_notimplemented :
    DISABLED = [0x83, 0x84, 0x85, 0x86] ∧
    tableGet runOpcodes 0x83 = Option.none ∧
    tableGet SCRIPT_OPS 0x83 = some ["INVERT", "op_invert", "op_nop"] ∧
    (∀ (st : Stack) (oracles : ScriptOracles),
      run [0x83] Option.none Option.none Option.none st oracles =
        Except.error (PyExc.notImplemented, st)) ∧
    (∀ (st : Stack) (oracles : ScriptOracles),
      run [0x84] Option.none Option.none Option.none st oracles =
        Except.error (PyExc.notImplemented, st)) ∧
    (∀ (st : Stack) (oracles : ScriptOracles),
      run [0x85] Option.none Option.none Option.none st oracles =
        Except.error (PyExc.notImplemented, st)) ∧
    (∀ (st : Stack) (oracles : ScriptOracles),
      run [0x86] Option.none Option.none Option.none st oracles =
        Except.error (PyExc.notImplemented, st)) := by
  exact ⟨rfl, rfl, rfl, fun st oracles => rfl, fun st oracles => rfl,
    fun st oracles => rfl, fun st oracles => rfl⟩

/-- C6 counterexample: an unknown opcode (0xba is past the table's end) is
NOT handled: run propagates NotImplementedError to its caller and appends
no sentinel. -/
theorem unknown_opcode_propagates :
    run [0xba] Option.none Option.none Option.none [] zeroOracles =
      Except.error (PyExc.notImplemented, []) := rfl

/-- C6 (amended): `run` catches exactly TransactionInvalidError (RETURN,
failed VERIFY) and ReservedWordError, leaving the stack as it was at the
failure point with None appended; an unknown opcode, a disabled opcode
(both NotImplementedError) and numeric overflow (ValueError, here 2MUL on
0x7fffffff) all propagate out of run as uncaught exceptions. -/
theorem run_error_handling :
    (∀ (st : Stack) (oracles : ScriptOracles),
      run [0x6a] Option.none Option.none Option.none st oracles =
        Except.ok (st ++ [SItem.noneV])) ∧
    (∀ (st : Stack) (oracles : ScriptOracles),
      run [0x50] Option.none Option.none Option.none st oracles =
        Except.ok (st ++ [SItem.noneV])) ∧
    (∀ (oracles : ScriptOracles),
      run [0x69] Option.none Option.none Option.none [SItem.bys []] oracles =
        Except.ok [SItem.noneV]) ∧
    (∀ (st : Stack) (oracles : ScriptOracles),
      run [0xba] Option.none Option.none Option.none st oracles =
        Except.error (PyExc.notImplemented, st)) ∧
    (∀ (st : Stack) (oracles : ScriptOracles),
      run [0x86] Option.none Option.none Option.none st oracles =
        Except.error (PyExc.notImplemented, st)) ∧
    (∀ (oracles : ScriptOracles),
      run [0x8d] Option.none Option.none Option.none
        [SItem.bys [0xff, 0xff, 0xff, 0x7f]] oracles =
        Except.error (PyExc.valueErr, [])) := by
  exact ⟨fun st oracles => rfl, fun st oracles => rfl, fun oracles => rfl,
    fun st oracles => rfl, fun st oracles => rfl, fun oracles => rfl⟩

/-! ## C7: the pushdata operations -/

/-- C7: op_pushdata1 and op_pushdata2 read little-endian counts, but
op_pushdata4 ADDS the constants 0x100, 0x10000 and 0x1000000 to the raw
count bytes instead of multiplying, so its count is
b0 + b1 + b2 + b3 + 0x1010100 rather than the little-endian value; for
count bytes [4, 0, 0, 0] (which the claim says pushes 4 bytes) the script
[0x4e, 4, 0, 0, 0, 1..6] pushes all 6 following bytes. -/
theorem pushdata4_count_bug :
    (∀ (st : Stack) (ctx : Ctx) (cnt : Nat) (rest : List Nat),
      ∃ ctx2, op_pushdata1 st { ctx with script := cnt :: rest } =
        Except.ok (st ++ [SItem.bys (rest.take cnt)], ctx2) ∧
        ctx2.script = rest.drop cnt) ∧
    (∀ (st : Stack) (ctx : Ctx) (b0 b1 : Nat) (rest : List Nat),
      ∃ ctx2, op_pushdata2 st { ctx with script := b0 :: b1 :: rest } =
        Except.ok (st ++ [SItem.bys (rest.take (b0 + 0x100 * b1))], ctx2) ∧
        ctx2.script = rest.drop (b0 + 0x100 * b1)) ∧
    (∀ (st : Stack) (ctx : Ctx) (b0 b1 b2 b3 : Nat) (rest : List Nat),
      ∃ ctx2,
        op_pushdata4 st { ctx with script := b0 :: b1 :: b2 :: b3 :: rest } =
          Except.ok (st ++
            [SItem.bys (rest.take (b0 + b1 + b2 + b3 + 0x1010100))], ctx2) ∧
        ctx2.script = rest.drop (b0 + b1 + b2 + b3 + 0x1010100)) ∧
    run [0x4e, 4, 0, 0, 0, 1, 2, 3, 4, 5, 6] Option.none Option.none
      Option.none [] zeroOracles = Except.ok [SItem.bys [1, 2, 3, 4, 5, 6]] := by
  refine ⟨?_, ?_, ?_, rfl⟩
  · intro st ctx cnt rest
    exact ⟨{ ctx with script := rest.drop cnt }, rfl, rfl⟩
  · intro st ctx b0 b1 rest
    exact ⟨{ ctx with script := rest.drop (b0 + 0x100 * b1) }, rfl, rfl⟩
  · intro st ctx b0 b1 b2 b3 rest
    have harith : b0 + (0x100 + b1) + (0x10000 + b2) + (0x1000000 + b3)
        = b0 + b1 + b2 + b3 + 0x1010100 := by omega
    have hstep : op_pushdata4 st { ctx with script := b0 :: b1 :: b2 :: b3 :: rest } =
        Except.ok (st ++ [SItem.bys (rest.take (b0 + (0x100 + b1) + (0x10000 + b2) + (0x1000000 + b3)))],
          { ctx with script := rest.drop (b0 + (0x100 + b1) + (0x10000 + b2) + (0x1000000 + b3)) }) := rfl
    refine ⟨{ ctx with script := rest.drop (b0 + b1 + b2 + b3 + 0x1010100) }, ?_, rfl⟩
    rw [hstep, harith]

/-! ## C10: opcode 0x6c can never succeed -/

set_option linter.unnecessarySeqFocus false in
/-- C10: executing opcode 0x6c (FROMALTSTACK) never completes: the
SCRIPT_OPS entry lost a comma, so it has only the two elements
['FROMALTSTACK', 'op_fromaltstackop_nop']; the concatenated name is not a
defined function (KeyError in an active branch), the inactive branch reads
the missing element 2 (IndexError), and op_fromaltstack itself references
the undefined global `altstack` (NameError); run catches none of these.
The last conjunct runs FALSE; IF; FROMALTSTACK to exercise the inactive
branch end to end. -/
theorem fromaltstack_never_succeeds :
    tableGet runOpcodes 0x6c = some ["FROMALTSTACK", "op_fromaltstackop_nop"] ∧
    globalsFind "op_fromaltstackop_nop" = Option.none ∧
    (∀ (st : Stack) (ctx : Ctx),
      op_fromaltstack st ctx = Except.error (PyExc.nameErr, st)) ∧
    (∀ (fuel : Nat) (st : Stack) (ctx : Ctx) (rest : List Nat),
      runLoop (fuel + 1) st { ctx with script := 0x6c :: rest } =
        Except.error ((if ifstackLastFalsy ctx.ifstack then PyExc.indexErr
          else PyExc.keyErr), st)) ∧
    (∀ (st : Stack) (oracles : ScriptOracles),
      run [0x6c] Option.none Option.none Option.none st oracles =
        Except.error (PyExc.keyErr, st)) ∧
    (∀ (oracles : ScriptOracles),
      run [0x00, 0x63, 0x6c] Option.none Option.none Option.none [] oracles =
        Except.error (PyExc.indexErr, [])) := by
  refine ⟨rfl, rfl, fun st ctx => rfl, ?_, fun st oracles => rfl,
    fun oracles => rfl⟩
  intro fuel st ctx rest
  cases hb : ifstackLastFalsy ctx.ifstack <;>
    simp only [runLoop, hb, tableGet_6c, if_false, if_true, List.get?,
      globalsFind_fromaltstackop_nop] <;> rfl

/-! ## C1: the OP_CHECKSIG signature-hash preimage -/

/-- A minimal one-input transaction for exercising op_checksig. -/
def checksigDemoInput : SplitInput :=
  { previous_hash := List.replicate 32 0
    previous_index := [0, 0, 0, 0]
    raw_length := [2]
    script := [0xab, 0xac]
    sequence := [0xff, 0xff, 0xff, 0xff] }

/-- The enclosing transaction for the C1 demonstration. -/
def checksigDemoTx : Tx :=
  { version := [1, 0, 0, 0]
    raw_in_count := [1]
    inputs := [checksigDemoInput]
    raw_out_count := [0]
    outputs := []
    lock_time := [0, 0, 0, 0] }

/-- The serialized preimage op_checksig actually hashes for the script
CODESEPARATOR; CHECKSIG in checksigDemoTx: the input's script field is the
subscript [0xab, 0xac] WITH the OP_CODESEPARATOR byte still present,
prefixed by its VarInt length 2; the trailing [1, 0, 0, 0] is the 4-byte
little-endian hash type. -/
def checksigDemoPreimage : List Nat :=
  [1, 0, 0, 0] ++ [1] ++ List.replicate 32 0 ++ [0, 0, 0, 0] ++
    [2] ++ [0xab, 0xac] ++ [0xff, 0xff, 0xff, 0xff] ++ [0] ++
    [0, 0, 0, 0] ++ [1, 0, 0, 0]

/-- C1: op_checksig's subscript RETAINS the OP_CODESEPARATOR byte at the
mark position: the removal loop `range(len(checker) - 1, 0, -1)` never
examines offset 0, and the mark recorded by op_codeseparator is the
separator's own offset, so `reference[mark[-1]:]` starts with the 0xab
byte and it is never excised (a separator strictly after the mark IS
excised, as the second conjunct shows).  The final conjunct runs the
script CODESEPARATOR; CHECKSIG end to end: the double-SHA-256 is taken of
checksigDemoPreimage, whose script field still contains 0xab, diverging
from the claimed "every remaining OP_CODESEPARATOR byte excised". -/
theorem checksig_retains_mark_codeseparator :
    checksig_subscript [0xab, 0xac] [some 0xab, some 0xac] 0 = [0xab, 0xac] ∧
    checksig_subscript [0xab, 0xac, 0xab, 0xac]
      [some 0xab, some 0xac, some 0xab, some 0xac] 0 = [0xab, 0xac, 0xac] ∧
    0xab ∈ checksig_subscript [0xab, 0xac] [some 0xab, some 0xac] 0 ∧
    (∀ (oracles : ScriptOracles),
      run [0xab, 0xac] (some checksigDemoTx) (some 0)
        (some [some 0xab, some 0xac])
        [SItem.bys [0x05, 0x01], SItem.bys [0x02]] oracles =
      Except.ok [SItem.num (oracles.ecdsaVerify [0x02]
        (oracles.sha256 (oracles.sha256 checksigDemoPreimage)) [0x05])]) := by
  exact ⟨by decide, by decide, by decide, fun oracles => rfl⟩
